import Mathlib

/-!
Shallow embedding of the tic-tac-toe backend's game-rule and state-transition
engine (`src/api/game_service.py`, `src/db/repositories.py`, and the
leaderboard endpoint in `src/api/main.py`), together with theorems settling
the specification claims about it.

Modelling conventions:
* Python `str` boards are Lean `String`s; `list(board)` is `String.toList`.
* Python `Optional[int]` ids are `Option Int`; Python truthiness of an
  optional integer (`if game.player_x_id:`) is `truthyInt` (None and 0 falsy).
* Python dicts keyed by username are association lists updated in insertion
  order (`dictSet` / `dictIncr`), which matches dict semantics on the keys
  actually used.
* Python's stable `sorted` is Mathlib's (stable) `List.insertionSort`.
* Database timestamps are omitted: no claim refers to them.
-/

set_option maxHeartbeats 1000000

namespace TTT

/-- The `GameStatus` enum from `src/db/models.py`. -/
inductive GameStatus where
  | in_progress
  | x_won
  | o_won
  | draw
  deriving DecidableEq, Repr

/-- The persisted `Game` row from `src/db/models.py` (timestamps omitted;
no claim refers to them).  A fresh row defaults to a board of nine spaces,
`in_progress` status and no winner. -/
structure Game where
  id : Int
  board : String
  status : GameStatus
  winner : Option Char
  player_x_id : Option Int
  player_o_id : Option Int
  deriving DecidableEq, Repr

/-- The persisted `Move` row from `src/db/models.py` (timestamp omitted). -/
structure MoveRec where
  game_id : Int
  position : Int
  mark : Char
  player_id : Option Int
  deriving DecidableEq, Repr

/-- The persisted `Player` row from `src/db/models.py`, reduced to the fields
the leaderboard reads. -/
structure PlayerRec where
  id : Int
  username : String
  deriving DecidableEq, Repr

/-- Python truthiness of an optional integer: `None` and `0` are falsy. -/
def truthyInt : Option Int → Bool
  | none => false
  | some n => n != 0

/-- `board_to_list` from `game_service.py`: `list(board)`. -/
def board_to_list (board : String) : List Char :=
  board.toList

/-- `list_to_board` from `game_service.py`: `"".join(cells)`. -/
def list_to_board (cells : List Char) : String :=
  String.mk cells

/-- Python `board.count(c)` for a single-character needle. -/
def count_char (s : String) (c : Char) : Nat :=
  s.toList.count c

/-- `compute_current_player` from `game_service.py`: X starts; if the X and O
counts are equal it is X's turn, else O's. -/
def compute_current_player (board : String) : Char :=
  if count_char board 'X' = count_char board 'O' then 'X' else 'O'

/-- `WIN_LINES` from `game_service.py`: three rows, three columns, two
diagonals, in that order. -/
def WIN_LINES : List (Nat × Nat × Nat) :=
  [(0, 1, 2), (3, 4, 5), (6, 7, 8), (0, 3, 6), (1, 4, 7), (2, 5, 8), (0, 4, 8), (2, 4, 6)]

/-- One iteration of the `detect_winner` loop: the condition
`cells[a] != " " and cells[a] == cells[b] == cells[c]` on one line. -/
def line_winner (cells : List Char) : Nat × Nat × Nat → Option Char
  | (a, b, c) =>
    if cells.getD a ' ' ≠ ' ' ∧ cells.getD a ' ' = cells.getD b ' ' ∧
        cells.getD b ' ' = cells.getD c ' ' then
      some (cells.getD a ' ')
    else
      none

/-- `detect_winner` from `game_service.py`: return the mark of the first
winning line found, scanning `WIN_LINES` in order, else `none`. -/
def detect_winner (board : String) : Option Char :=
  WIN_LINES.findSome? (line_winner (board_to_list board))

/-- `is_draw` from `game_service.py`: the board is full and has no winner. -/
def is_draw (board : String) : Bool :=
  !(board.toList.contains ' ') && (detect_winner board).isNone

/-- The status/winner recomputation block of `apply_move`
(`game_service.py` lines 130-139): winner from `detect_winner`, then
status `x_won` / `o_won` / `draw` / `in_progress`. -/
def classify_status (board : String) : GameStatus × Option Char :=
  let winner := detect_winner board
  (if winner = some 'X' then .x_won
   else if winner = some 'O' then .o_won
   else if is_draw board then .draw
   else .in_progress,
   winner)

/-- The optional turn-enforcement block of `apply_move`
(`game_service.py` lines 114-121), returning the error message it would
produce, if any. -/
def turn_error (g : Game) (mark : Char) (player_id : Option Int) : Option String :=
  if truthyInt g.player_x_id || truthyInt g.player_o_id then
    match player_id with
    | some pid =>
      if mark = 'X' ∧ truthyInt g.player_x_id ∧ g.player_x_id ≠ some pid then
        some "It is X's turn"
      else if mark = 'O' ∧ truthyInt g.player_o_id ∧ g.player_o_id ≠ some pid then
        some "It is O's turn"
      else
        none
    | none => none
  else
    none

/-- The per-game core of `apply_move` (`game_service.py` lines 101-143),
acting on an already-fetched game row: validation in source order
(status, position range, cell occupancy, turn enforcement), then the move
applied and the status/winner recomputed from the new board.  Persistence
of the result is `submit_move` below. -/
def apply_move_game (g : Game) (position : Int) (player_id : Option Int) :
    Except String Game :=
  if g.status ≠ .in_progress then .error "Game is not in progress"
  else if position < 0 ∨ position > 8 then .error "Position must be between 0 and 8"
  else
    let board_cells := board_to_list g.board
    if board_cells.getD position.toNat ' ' ≠ ' ' then .error "Cell already occupied"
    else
      let mark := compute_current_player g.board
      match turn_error g mark player_id with
      | some e => .error e
      | none =>
        let new_board := list_to_board (board_cells.set position.toNat mark)
        let sw := classify_status new_board
        .ok { g with board := new_board, status := sw.1, winner := sw.2 }

/-- The store the repositories act on: the `games` and `moves` tables. -/
structure Store where
  games : List Game
  moves : List MoveRec
  deriving DecidableEq, Repr

/-- `GameRepository.get_by_id`: primary-key lookup. -/
def get_by_id (s : Store) (game_id : Int) : Option Game :=
  s.games.find? (fun g => g.id == game_id)

/-- `create_new_game` from `game_service.py` with the row defaults of
`models.py`: all-empty board, `in_progress` status, no winner. -/
def create_new_game (id : Int) (player_x_id player_o_id : Option Int) : Game :=
  { id := id, board := "         ", status := .in_progress, winner := none,
    player_x_id := player_x_id, player_o_id := player_o_id }

/-- The whole of `apply_move` at the store level: fetch the game, run the
per-game core, and on success persist the move record
(`MoveRepository.create`) and the updated row
(`GameRepository.update_board_and_status`).  On any validation failure the
store is returned untouched, as in the source, where every failing branch
returns before the first repository write. -/
def submit_move (s : Store) (game_id : Int) (position : Int)
    (player_id : Option Int) : Store × Option Game × Option String :=
  match get_by_id s game_id with
  | none => (s, none, some "Game not found")
  | some g =>
    match apply_move_game g position player_id with
    | .error e => (s, none, some e)
    | .ok g2 =>
      let mark := compute_current_player g.board
      ({ games := s.games.map (fun h => if h.id == g.id then g2 else h),
         moves := s.moves ++
           [{ game_id := g.id, position := position, mark := mark, player_id := player_id }] },
       some g2, none)

/-! ## Helper definitions and lemmas -/

instance {ε α : Type} [DecidableEq ε] [DecidableEq α] : DecidableEq (Except ε α) := fun x y =>
  match x, y with
  | .error a, .error b => if h : a = b then .isTrue (by rw [h]) else .isFalse (by simp [h])
  | .error _, .ok _ => .isFalse (by simp)
  | .ok _, .error _ => .isFalse (by simp)
  | .ok a, .ok b => if h : a = b then .isTrue (by rw [h]) else .isFalse (by simp [h])

/-- The board produced by an accepted move: the inferred current mark written
into the chosen cell. -/
def next_board (g : Game) (position : Int) : String :=
  list_to_board ((board_to_list g.board).set position.toNat (compute_current_player g.board))

/-- A winning line `t` is filled by the (non-blank) mark `m`. -/
def line_filled_by (cells : List Char) (t : Nat × Nat × Nat) (m : Char) : Prop :=
  m ≠ ' ' ∧ cells.getD t.1 ' ' = m ∧ cells.getD t.2.1 ' ' = m ∧ cells.getD t.2.2 ' ' = m

instance (cells : List Char) (t : Nat × Nat × Nat) (m : Char) :
    Decidable (line_filled_by cells t m) := by
  unfold line_filled_by; infer_instance

/-- A board whose cells are all blank, X or O. -/
def valid_board (board : String) : Prop :=
  ∀ c ∈ board.toList, c = ' ' ∨ c = 'X' ∨ c = 'O'

instance (board : String) : Decidable (valid_board board) := by
  unfold valid_board; infer_instance

theorem compute_current_player_cases (board : String) :
    compute_current_player board = 'X' ∨ compute_current_player board = 'O' := by
  unfold compute_current_player
  split <;> simp

theorem line_winner_eq_some_iff {cells : List Char} {t : Nat × Nat × Nat} {m : Char} :
    line_winner cells t = some m ↔ line_filled_by cells t m := by
  obtain ⟨a, b, c⟩ := t
  simp only [line_winner, line_filled_by]
  split
  · rename_i h
    constructor
    · rintro h2
      obtain rfl : cells.getD a ' ' = m := by exact Option.some.inj h2
      exact ⟨h.1, rfl, h.2.1.symm, (h.2.1.trans h.2.2).symm⟩
    · rintro ⟨_, h1, _, _⟩
      exact congrArg some h1
  · rename_i h
    constructor
    · rintro h2; cases h2
    · rintro ⟨hm, h1, h2, h3⟩
      exact absurd ⟨h1.symm ▸ hm, h1.trans h2.symm, h2.trans h3.symm⟩ h


theorem findSome?_first {α β : Type} (f : α → Option β) :
    ∀ (l : List α) (k : Nat) (hk : k < l.length),
      (f (l.get ⟨k, hk⟩)).isSome →
      (∀ j (hj : j < k), f (l.get ⟨j, Nat.lt_trans hj hk⟩) = none) →
      l.findSome? f = f (l.get ⟨k, hk⟩)
  | a :: l, 0, _, hsome, _ => by
    simpa using List.findSome?_cons_of_isSome l hsome
  | a :: l, k + 1, hk, hsome, hfirst => by
    have hfa : f a = none := hfirst 0 (Nat.succ_pos k)
    have h2 := findSome?_first f l k (Nat.lt_of_succ_lt_succ hk) hsome
      (fun j hj => hfirst (j + 1) (Nat.succ_lt_succ hj))
    have hnone : (f a).isNone := by simp [hfa]
    simpa [List.findSome?_cons_of_isNone l hnone] using h2

theorem apply_move_game_of_not_in_progress (g : Game) (position : Int)
    (player_id : Option Int) (h : g.status ≠ .in_progress) :
    apply_move_game g position player_id = .error "Game is not in progress" := by
  unfold apply_move_game
  rw [if_pos h]

theorem apply_move_game_ok_iff {g : Game} {position : Int} {player_id : Option Int}
    {g2 : Game} :
    apply_move_game g position player_id = .ok g2 ↔
      g.status = .in_progress ∧ ¬(position < 0 ∨ position > 8) ∧
      (board_to_list g.board).getD position.toNat ' ' = ' ' ∧
      turn_error g (compute_current_player g.board) player_id = none ∧
      g2 = { g with board := next_board g position,
                    status := (classify_status (next_board g position)).1,
                    winner := (classify_status (next_board g position)).2 } := by
  constructor
  · intro h
    simp only [apply_move_game] at h
    by_cases h1 : g.status ≠ GameStatus.in_progress
    · rw [if_pos h1] at h; cases h
    rw [if_neg h1] at h
    by_cases h2 : position < 0 ∨ position > 8
    · rw [if_pos h2] at h; cases h
    rw [if_neg h2] at h
    by_cases h3 : (board_to_list g.board).getD position.toNat ' ' ≠ ' '
    · rw [if_pos h3] at h; cases h
    rw [if_neg h3] at h
    cases h4 : turn_error g (compute_current_player g.board) player_id with
    | some e => rw [h4] at h; cases h
    | none =>
      rw [h4] at h
      exact ⟨not_not.mp h1, h2, not_not.mp h3, rfl, (Except.ok.inj h).symm⟩
  · rintro ⟨h1, h2, h3, h4, rfl⟩
    simp only [apply_move_game]
    rw [if_neg (by simp [h1]), if_neg h2, if_neg (by simpa using h3), h4]
    rfl

/-! ## Claim C8: board codec -/

/-- Error kind the spec's Board Codec is said to raise. -/
inductive CodecError where
  | MalformedBoard
  deriving DecidableEq, Repr

/-- Modelled from the spec: `decode` as the spec's Board Codec section
describes it, failing with `MalformedBoard` when the input length is not 9.
Stated only to compare with the source's `board_to_list`, which performs no
length check. -/
def decode_spec (board : String) : Except CodecError (List Char) :=
  if board.length ≠ 9 then .error .MalformedBoard else .ok board.toList

/-- Modelled from the spec: `encode` as the spec's Board Codec section
describes it, failing with `MalformedBoard` when the cell count is not 9.
Stated only to compare with the source's `list_to_board`. -/
def encode_spec (cells : List Char) : Except CodecError String :=
  if cells.length ≠ 9 then .error .MalformedBoard else .ok (String.mk cells)

/-- C8 counterexample: on the length-2 input "AB" the claimed codec fails
with `MalformedBoard` (as `decode_spec`/`encode_spec`, which follow the
claim's words, do), but the source codec performs no length validation at
all: `board_to_list` returns the two cells normally and `list_to_board`
round-trips them unchanged. -/
theorem C8_counterexample :
    decode_spec "AB" = .error .MalformedBoard ∧
    encode_spec ['A', 'B'] = .error .MalformedBoard ∧
    board_to_list "AB" = ['A', 'B'] ∧
    list_to_board ['A', 'B'] = "AB" :=
  ⟨rfl, rfl, rfl, rfl⟩

/-- C8 amended: the source board codec performs no length validation and
never fails; `board_to_list` and `list_to_board` are mutually inverse
identity conversions on every input, in particular on length-9 ones.  The
length-9 constraint lives in the persistence schema, not in the codec. -/
theorem C8_codec_total_inverse :
    (∀ board : String, list_to_board (board_to_list board) = board) ∧
    (∀ cells : List Char, board_to_list (list_to_board cells) = cells) := by
  constructor
  · intro board
    cases board
    rfl
  · intro cells
    rfl

/-! ## Claim C7: moves on finished games -/

/-- C7: a move on a game whose status is not in-progress always fails with
the `GameNotInProgress` error ("Game is not in progress"), both in the pure
rule engine and at the store level; the position is entirely unconstrained
in this theorem, so the status check precedes the position-range and
cell-occupancy checks and a terminal game rejects moves at any position
with this error. -/
theorem C7_not_in_progress_always_rejected (g : Game) (position : Int)
    (player_id : Option Int) (h : g.status ≠ .in_progress) :
    apply_move_game g position player_id = .error "Game is not in progress" ∧
    ∀ (s : Store) (game_id : Int), get_by_id s game_id = some g →
      submit_move s game_id position player_id =
        (s, none, some "Game is not in progress") := by
  refine ⟨apply_move_game_of_not_in_progress g position player_id h, ?_⟩
  intro s game_id hget
  simp only [submit_move, hget, apply_move_game_of_not_in_progress g position player_id h]

/-- Concrete finished game used by the C7 witness. -/
def c7_game : Game :=
  { id := 1, board := "XXXOO    ", status := .x_won, winner := some 'X',
    player_x_id := none, player_o_id := none }

/-- Concrete store holding `c7_game`. -/
def c7_store : Store :=
  { games := [c7_game], moves := [] }

/-- Witness for C7: a finished game rejects a move even at the out-of-range
position 42 with the not-in-progress error, and the store is untouched. -/
theorem C7_witness :
    apply_move_game c7_game 42 none = .error "Game is not in progress" ∧
    submit_move c7_store 1 42 none = (c7_store, none, some "Game is not in progress") :=
  ⟨(C7_not_in_progress_always_rejected c7_game 42 none (by decide)).1,
   (C7_not_in_progress_always_rejected c7_game 42 none (by decide)).2 c7_store 1 (by decide)⟩

/-! ## Claim C5: turn inference -/

/-- C5: the current turn is inferred solely from cell counts — it is X's
turn iff the X and O counts are equal, otherwise O's — and every accepted
move writes exactly the inferred mark into the chosen cell, both on the
stored board and in the appended move record. -/
theorem C5_turn_inferred_from_counts (board : String) (g : Game) (position : Int)
    (player_id : Option Int) (g2 : Game)
    (h : apply_move_game g position player_id = .ok g2) :
    (compute_current_player board = 'X' ↔ count_char board 'X' = count_char board 'O') ∧
    (compute_current_player board = 'O' ↔ count_char board 'X' ≠ count_char board 'O') ∧
    board_to_list g2.board =
      (board_to_list g.board).set position.toNat (compute_current_player g.board) ∧
    ∀ (s : Store) (game_id : Int), get_by_id s game_id = some g →
      (submit_move s game_id position player_id).1.moves =
        s.moves ++ [{ game_id := g.id, position := position,
                      mark := compute_current_player g.board, player_id := player_id }] := by
  obtain ⟨-, -, -, -, rfl⟩ := apply_move_game_ok_iff.mp h
  refine ⟨?_, ?_, rfl, ?_⟩
  · constructor
    · intro hX
      by_contra hc
      simp only [compute_current_player, if_neg hc] at hX
      exact absurd hX (by decide)
    · intro hc
      simp [compute_current_player, hc]
  · constructor
    · intro hO hc
      simp only [compute_current_player, if_pos hc] at hO
      exact absurd hO (by decide)
    · intro hc
      simp [compute_current_player, hc]
  · intro s game_id hget
    simp only [submit_move, hget, h]

/-- Concrete updated game used by the C5 witness: X placed at cell 4 of an
empty anonymous game. -/
def c5_game2 : Game :=
  { id := 1, board := "    X    ", status := .in_progress, winner := none,
    player_x_id := none, player_o_id := none }

/-- Witness for C5 at the board "XO " (equal counts) and a concrete
accepted move at position 4 of a fresh anonymous game. -/
theorem C5_witness :
    (compute_current_player "XO " = 'X' ↔ count_char "XO " 'X' = count_char "XO " 'O') ∧
    (compute_current_player "XO " = 'O' ↔ count_char "XO " 'X' ≠ count_char "XO " 'O') ∧
    board_to_list c5_game2.board =
      (board_to_list (create_new_game 1 none none).board).set (4 : Int).toNat
        (compute_current_player (create_new_game 1 none none).board) ∧
    ∀ (s : Store) (game_id : Int), get_by_id s game_id = some (create_new_game 1 none none) →
      (submit_move s game_id 4 none).1.moves =
        s.moves ++ [{ game_id := (create_new_game 1 none none).id, position := 4,
                      mark := compute_current_player (create_new_game 1 none none).board,
                      player_id := none }] :=
  C5_turn_inferred_from_counts "XO " (create_new_game 1 none none) 4 none c5_game2 (by decide)

/-! ## Claims C10 and C4: win detection and classification -/

theorem contains_char_iff (l : List Char) (c : Char) :
    (l.contains c = true) ↔ c ∈ l := by
  simp [List.contains]

theorem line_winner_eq_none_iff {cells : List Char} {t : Nat × Nat × Nat} :
    line_winner cells t = none ↔ ∀ m, ¬ line_filled_by cells t m := by
  constructor
  · intro h m hf
    rw [line_winner_eq_some_iff.mpr hf] at h
    cases h
  · intro h
    cases hw : line_winner cells t with
    | none => rfl
    | some m => exact absurd (line_winner_eq_some_iff.mp hw) (h m)

/-- Some winning line is filled by three identical non-blank marks. -/
def has_winning_line (board : String) : Prop :=
  ∃ t ∈ WIN_LINES, ∃ m, line_filled_by (board_to_list board) t m

theorem detect_winner_eq_none_iff {board : String} :
    detect_winner board = none ↔ ¬ has_winning_line board := by
  rw [detect_winner, List.findSome?_eq_none_iff]
  constructor
  · rintro h ⟨t, ht, m, hf⟩
    have h2 := h t ht
    rw [line_winner_eq_some_iff.mpr hf] at h2
    cases h2
  · intro h t ht
    exact line_winner_eq_none_iff.mpr (fun m hf => h ⟨t, ht, m, hf⟩)

theorem mark_mem_of_line_filled {board : String} {t : Nat × Nat × Nat} {m : Char}
    (hf : line_filled_by (board_to_list board) t m) : m ∈ board.toList := by
  obtain ⟨hm, h1, -, -⟩ := hf
  rw [List.getD_eq_getElem?_getD] at h1
  cases hx : (board_to_list board)[t.1]? with
  | none => rw [hx] at h1; exact absurd h1.symm hm
  | some c =>
    rw [hx] at h1
    have h2 : c = m := h1
    exact h2 ▸ List.getElem?_mem hx

theorem line_mark_X_or_O {board : String} (hv : valid_board board)
    {t : Nat × Nat × Nat} {m : Char} (hf : line_filled_by (board_to_list board) t m) :
    m = 'X' ∨ m = 'O' := by
  rcases hv m (mark_mem_of_line_filled hf) with h | h | h
  · exact absurd h hf.1
  · exact Or.inl h
  · exact Or.inr h

/-- C10: `detect_winner` is a total deterministic function on boards — by
construction it returns an optional mark and cannot error — and whenever
line `k` of `WIN_LINES` (the fixed order: rows (0,1,2),(3,4,5),(6,7,8),
then columns (0,3,6),(1,4,7),(2,5,8), then diagonals (0,4,8),(2,4,6)) is
filled by a mark while no earlier line is filled, it returns exactly that
line's mark, regardless of any later filled lines, including filled lines
of a different mark. -/
theorem C10_detect_winner_first_line (board : String) (k : Nat)
    (hk : k < WIN_LINES.length) (m : Char)
    (hline : line_filled_by (board_to_list board) (WIN_LINES.get ⟨k, hk⟩) m)
    (hfirst : ∀ j (hj : j < k) m',
      ¬ line_filled_by (board_to_list board) (WIN_LINES.get ⟨j, Nat.lt_trans hj hk⟩) m') :
    detect_winner board = some m := by
  have hw : line_winner (board_to_list board) (WIN_LINES.get ⟨k, hk⟩) = some m :=
    line_winner_eq_some_iff.mpr hline
  have hfs := findSome?_first (line_winner (board_to_list board)) WIN_LINES k hk
    (by rw [hw]; rfl)
    (fun j hj => line_winner_eq_none_iff.mpr (fun m' => hfirst j hj m'))
  rw [detect_winner, hfs, hw]

/-- Witness for C10: on "X OX OX O" the first column (line index 3) is
filled by X and the third column (line index 5) by O; no earlier line is
filled, and `detect_winner` returns X, the mark of the first filled line in
the fixed order. -/
theorem C10_witness :
    detect_winner "X OX OX O" = some 'X' ∧
    line_filled_by (board_to_list "X OX OX O") (2, 5, 8) 'O' :=
  ⟨C10_detect_winner_first_line "X OX OX O" 3 (by decide) 'X' (by decide)
    (by
      intro j hj m'
      refine line_winner_eq_none_iff.mp ?_ m'
      interval_cases j
      · exact (by decide : line_winner (board_to_list "X OX OX O") (0, 1, 2) = none)
      · exact (by decide : line_winner (board_to_list "X OX OX O") (3, 4, 5) = none)
      · exact (by decide : line_winner (board_to_list "X OX OX O") (6, 7, 8) = none)),
   by decide⟩

/-- C4: classification of a board over the marks blank/X/O: if some of the
8 winning lines is filled by three identical non-blank marks, the status is
won by the detected winner and the winner field is the detected mark;
otherwise the board classifies as draw iff no empty cell remains, else as
in-progress (and `is_draw` holds iff the board is full with no winner); and
after every accepted move the stored status and winner are exactly this
classification recomputed from the new board. -/
theorem C4_classification (board : String) (hv : valid_board board) :
    (has_winning_line board →
      ∃ m, detect_winner board = some m ∧
        (∃ t ∈ WIN_LINES, line_filled_by (board_to_list board) t m) ∧
        classify_status board = (if m = 'X' then .x_won else .o_won, some m)) ∧
    (¬ has_winning_line board →
      detect_winner board = none ∧
      classify_status board = (if ' ' ∈ board.toList then .in_progress else .draw, none)) ∧
    (is_draw board = true ↔ ¬ ' ' ∈ board.toList ∧ detect_winner board = none) ∧
    (∀ (g : Game) (position : Int) (player_id : Option Int) (g2 : Game),
      apply_move_game g position player_id = .ok g2 →
      (g2.status, g2.winner) = classify_status g2.board) := by
  refine ⟨?_, ?_, ?_, ?_⟩
  · rintro ⟨t, ht, m0, hf⟩
    have hsome : (detect_winner board).isSome := by
      rw [detect_winner]
      exact List.findSome?_isSome_iff.mpr
        ⟨t, ht, by rw [line_winner_eq_some_iff.mpr hf]; rfl⟩
    obtain ⟨m, hm⟩ := Option.isSome_iff_exists.mp hsome
    rw [detect_winner] at hm
    obtain ⟨t', ht', hw'⟩ := List.exists_of_findSome?_eq_some hm
    have hfm := line_winner_eq_some_iff.mp hw'
    refine ⟨m, by rw [detect_winner]; exact hm, ⟨t', ht', hfm⟩, ?_⟩
    have hdet : detect_winner board = some m := by rw [detect_winner]; exact hm
    rcases line_mark_X_or_O hv hfm with rfl | rfl
    · simp only [classify_status]
      rw [hdet]
      simp
    · simp only [classify_status]
      rw [hdet]
      simp [(by decide : ('O' : Char) ≠ 'X')]
  · intro hno
    have hd := detect_winner_eq_none_iff.mpr hno
    refine ⟨hd, ?_⟩
    simp only [classify_status]
    rw [hd, if_neg (by decide), if_neg (by decide)]
    by_cases hsp : ' ' ∈ board.toList
    · rw [if_pos hsp]
      have hc : board.toList.contains ' ' = true := (contains_char_iff _ _).mpr hsp
      rw [if_neg (by rw [is_draw, hd, hc]; decide)]
    · rw [if_neg hsp]
      have hc : board.toList.contains ' ' = false := by
        rw [Bool.eq_false_iff, Ne, contains_char_iff]
        exact hsp
      rw [if_pos (by rw [is_draw, hd, hc]; rfl)]
  · rw [is_draw, Bool.and_eq_true, Bool.not_eq_true', Option.isNone_iff_eq_none,
      Bool.eq_false_iff, Ne, contains_char_iff]
  · intro g position player_id g2 h
    obtain ⟨-, -, -, -, rfl⟩ := apply_move_game_ok_iff.mp h
    rfl

/-- Witness for C4 at the spec's fully filled drawn board "XOXOXOOXO". -/
theorem C4_witness :
    (has_winning_line "XOXOXOOXO" →
      ∃ m, detect_winner "XOXOXOOXO" = some m ∧
        (∃ t ∈ WIN_LINES, line_filled_by (board_to_list "XOXOXOOXO") t m) ∧
        classify_status "XOXOXOOXO" = (if m = 'X' then .x_won else .o_won, some m)) ∧
    (¬ has_winning_line "XOXOXOOXO" →
      detect_winner "XOXOXOOXO" = none ∧
      classify_status "XOXOXOOXO" =
        (if ' ' ∈ "XOXOXOOXO".toList then .in_progress else .draw, none)) ∧
    (is_draw "XOXOXOOXO" = true ↔
      ¬ ' ' ∈ "XOXOXOOXO".toList ∧ detect_winner "XOXOXOOXO" = none) ∧
    (∀ (g : Game) (position : Int) (player_id : Option Int) (g2 : Game),
      apply_move_game g position player_id = .ok g2 →
      (g2.status, g2.winner) = classify_status g2.board) :=
  C4_classification "XOXOXOOXO" (by decide)

/-! ## Claim C6: turn enforcement -/

/-- The player slot whose mark equals the current turn. -/
def current_turn_slot (g : Game) : Option Int :=
  if compute_current_player g.board = 'X' then g.player_x_id else g.player_o_id

theorem apply_move_game_eq_turn_branch (g : Game) (position : Int) (player_id : Option Int)
    (h1 : g.status = .in_progress) (h2 : ¬(position < 0 ∨ position > 8))
    (h3 : (board_to_list g.board).getD position.toNat ' ' = ' ') :
    apply_move_game g position player_id =
      match turn_error g (compute_current_player g.board) player_id with
      | some e => .error e
      | none => .ok { g with board := next_board g position,
                             status := (classify_status (next_board g position)).1,
                             winner := (classify_status (next_board g position)).2 } := by
  simp only [apply_move_game]
  rw [if_neg (by simp [h1]), if_neg h2, if_neg (by simpa using h3)]
  rfl

theorem turn_error_eq_some_iff {g : Game} {player_id : Option Int} {e : String} :
    turn_error g (compute_current_player g.board) player_id = some e ↔
      ((∃ p, player_id = some p ∧ truthyInt (current_turn_slot g) = true ∧
          current_turn_slot g ≠ some p) ∧
        e = (if compute_current_player g.board = 'X' then "It is X's turn"
             else "It is O's turn")) := by
  rcases compute_current_player_cases g.board with hm | hm
  · cases player_id with
    | none => simp [turn_error, hm, current_turn_slot]
    | some p =>
      by_cases hx : truthyInt g.player_x_id = true
      · by_cases hne : g.player_x_id = some p
        · simp [turn_error, hm, current_turn_slot, hx, hne,
            (by decide : ('X' : Char) ≠ 'O')]
        · simp [turn_error, hm, current_turn_slot, hx, hne, eq_comm,
            (by decide : ('X' : Char) ≠ 'O')]
      · simp [turn_error, hm, current_turn_slot, hx,
          (by decide : ('X' : Char) ≠ 'O')]
  · cases player_id with
    | none => simp [turn_error, hm, current_turn_slot, (by decide : ('O' : Char) ≠ 'X')]
    | some p =>
      by_cases ho : truthyInt g.player_o_id = true
      · by_cases hne : g.player_o_id = some p
        · simp [turn_error, hm, current_turn_slot, ho, hne,
            (by decide : ('O' : Char) ≠ 'X')]
        · simp [turn_error, hm, current_turn_slot, ho, hne,
            (by decide : ('O' : Char) ≠ 'X')]
          exact eq_comm
      · simp [turn_error, hm, current_turn_slot, ho,
          (by decide : ('O' : Char) ≠ 'X')]

/-- C6 (amended): for an in-progress game and a move on an empty in-range
cell, the move fails — necessarily with the wrong-turn message for the
current mark — iff an acting-player id is supplied, the slot whose mark
equals the current turn is assigned (truthy), and that slot differs from
the supplied id.  Enforcement is therefore skipped when no id is supplied,
when both slots are unassigned, and also when only the slot of the
non-current mark is assigned. -/
theorem C6_wrong_turn_iff (g : Game) (position : Int) (player_id : Option Int)
    (h1 : g.status = .in_progress) (h2 : ¬(position < 0 ∨ position > 8))
    (h3 : (board_to_list g.board).getD position.toNat ' ' = ' ') :
    ((∃ e, apply_move_game g position player_id = .error e) ↔
      (∃ p, player_id = some p ∧ truthyInt (current_turn_slot g) = true ∧
        current_turn_slot g ≠ some p)) ∧
    ∀ e, apply_move_game g position player_id = .error e →
      e = (if compute_current_player g.board = 'X' then "It is X's turn"
           else "It is O's turn") := by
  have hb := apply_move_game_eq_turn_branch g position player_id h1 h2 h3
  constructor
  · constructor
    · rintro ⟨e, he⟩
      rw [hb] at he
      cases ht : turn_error g (compute_current_player g.board) player_id with
      | none => rw [ht] at he; cases he
      | some e' => exact (turn_error_eq_some_iff.mp ht).1
    · intro hc
      refine ⟨if compute_current_player g.board = 'X' then "It is X's turn"
              else "It is O's turn", ?_⟩
      rw [hb, turn_error_eq_some_iff.mpr ⟨hc, rfl⟩]
  · intro e he
    rw [hb] at he
    cases ht : turn_error g (compute_current_player g.board) player_id with
    | none => rw [ht] at he; cases he
    | some e' =>
      rw [ht] at he
      have h5 : e' = e := Except.error.inj he
      subst h5
      exact (turn_error_eq_some_iff.mp ht).2

/-- Concrete game for the C6 counterexample: only the O slot is assigned. -/
def c6_game : Game :=
  { id := 1, board := "         ", status := .in_progress, winner := none,
    player_x_id := none, player_o_id := some 7 }

/-- C6 counterexample: `c6_game` has an assigned player slot, the acting
id 5 is supplied, and 5 matches neither slot while it is X's turn — the
claim's iff therefore demands a WrongTurn failure — yet the code accepts
the move, because the slot whose mark equals the current turn (X's) is
unassigned and the code only compares the acting id against that slot. -/
theorem C6_counterexample :
    compute_current_player c6_game.board = 'X' ∧
    (truthyInt c6_game.player_x_id || truthyInt c6_game.player_o_id) = true ∧
    c6_game.player_x_id ≠ some 5 ∧ c6_game.player_o_id ≠ some 5 ∧
    apply_move_game c6_game 0 (some 5) =
      .ok { id := 1, board := "X        ", status := .in_progress, winner := none,
            player_x_id := none, player_o_id := some 7 } := by
  decide

/-- Concrete fully assigned game used by the C6 witness. -/
def c6w_game : Game :=
  { id := 1, board := "         ", status := .in_progress, winner := none,
    player_x_id := some 3, player_o_id := some 7 }

/-- Witness for C6 at a fully assigned fresh game and position 0. -/
theorem C6_witness :
    ((∃ e, apply_move_game c6w_game 0 (some 7) = .error e) ↔
      (∃ p, (some 7 : Option Int) = some p ∧ truthyInt (current_turn_slot c6w_game) = true ∧
        current_turn_slot c6w_game ≠ some p)) ∧
    ∀ e, apply_move_game c6w_game 0 (some 7) = .error e →
      e = (if compute_current_player c6w_game.board = 'X' then "It is X's turn"
           else "It is O's turn") :=
  C6_wrong_turn_iff c6w_game 0 (some 7) (by decide) (by decide) (by decide)

/-! ## Claim C3: the "X plays 0,1,2" scenario -/

/-- Fresh two-player store used by the C3 scenario: game 1 with X-player 1
and O-player 2. -/
def c3_store0 : Store :=
  { games := [create_new_game 1 (some 1) (some 2)], moves := [] }

/-- C3 counterexample: on the two-player game, three consecutive move
submissions at positions 0, 1, 2 do not produce an X win.  Submitted
anonymously, all three are accepted but the marks alternate (the placed
mark is always the inferred current player), leaving "XOX" and an
in-progress game with no winner; submitted as X's player id 1, the second
one already fails with the wrong-turn error.  In neither reading is the
status X-won after the move at 2. -/
theorem C3_counterexample :
    (let s1 := (submit_move c3_store0 1 0 none).1
     let s2 := (submit_move s1 1 1 none).1
     let s3 := (submit_move s2 1 2 none).1
     get_by_id s3 1 = some { id := 1, board := "XOX      ", status := .in_progress,
                             winner := none, player_x_id := some 1,
                             player_o_id := some 2 }) ∧
    (submit_move (submit_move c3_store0 1 0 (some 1)).1 1 1 (some 1)).2.2 =
      some "It is O's turn" := by
  constructor
  · decide
  · decide

/-- The store after the realizable X-wins-the-top-row storyline: X at 0,
O at 3, X at 1, O at 4, X at 2, each submitted with the matching player id. -/
def c3_store5 : Store :=
  (submit_move ((submit_move ((submit_move ((submit_move ((submit_move c3_store0
    1 0 (some 1)).1) 1 3 (some 2)).1) 1 1 (some 1)).1) 1 4 (some 2)).1) 1 2 (some 1)).1

/-- The stored game row after the C3 storyline. -/
def c3_final_game : Game :=
  { id := 1, board := "XXXOO    ", status := .x_won, winner := some 'X',
    player_x_id := some 1, player_o_id := some 2 }

/-- C3 (amended): consecutive X moves are impossible because the placed
mark is inferred from the counts, so X completes the row 0,1,2 only with O
moves interleaved; after the storyline X:0, O:3, X:1, O:4, X:2 the stored
game is X-won with winner X, and a subsequent move attempt at any position
whatsoever, by anyone, fails with the GameNotInProgress error and leaves
the store unchanged. -/
theorem C3_row_win_after_interleaved_moves :
    get_by_id c3_store5 1 = some c3_final_game ∧
    ∀ (position : Int) (player_id : Option Int),
      submit_move c3_store5 1 position player_id =
        (c3_store5, none, some "Game is not in progress") := by
  have hget : get_by_id c3_store5 1 = some c3_final_game := by decide
  refine ⟨hget, ?_⟩
  intro position player_id
  simp only [submit_move, hget,
    apply_move_game_of_not_in_progress c3_final_game position player_id (by decide)]

/-! ## Claim C2: validation failures mutate nothing -/

/-- C2: whenever a move request fails validation — game not found, game not
in progress, position out of range, cell occupied, or wrong turn — the
specific error is returned, no game is returned, and the store (games and
move log) is exactly unchanged; in particular a move to a non-empty cell
always fails with the CellOccupied error and leaves everything unchanged. -/
theorem C2_validation_failure_no_mutation (s : Store) (game_id position : Int)
    (player_id : Option Int) :
    ((submit_move s game_id position player_id).2.2.isSome →
      (submit_move s game_id position player_id).1 = s ∧
      (submit_move s game_id position player_id).2.1 = none) ∧
    (∀ g, get_by_id s game_id = some g → g.status = .in_progress →
      ¬(position < 0 ∨ position > 8) →
      (board_to_list g.board).getD position.toNat ' ' ≠ ' ' →
      submit_move s game_id position player_id = (s, none, some "Cell already occupied")) := by
  constructor
  · intro herr
    cases hget : get_by_id s game_id with
    | none => simp [submit_move, hget]
    | some g =>
      cases happ : apply_move_game g position player_id with
      | error e => simp [submit_move, hget, happ]
      | ok g2 => simp [submit_move, hget, happ] at herr
  · intro g hget h1 h2 h3
    have happ : apply_move_game g position player_id = .error "Cell already occupied" := by
      simp only [apply_move_game]
      rw [if_neg (by simp [h1]), if_neg h2, if_pos (by simpa using h3)]
    simp [submit_move, hget, happ]

/-- Concrete store for the C2 witness: game 1 already has X at cell 0. -/
def c2_store : Store :=
  { games := [{ id := 1, board := "X        ", status := .in_progress, winner := none,
                player_x_id := none, player_o_id := none }],
    moves := [{ game_id := 1, position := 0, mark := 'X', player_id := none }] }

/-- Witness for C2: replaying into the occupied cell 0 of `c2_store` fails
with the CellOccupied error and the store and move log are unchanged. -/
theorem C2_witness :
    ((submit_move c2_store 1 0 none).2.2.isSome →
      (submit_move c2_store 1 0 none).1 = c2_store ∧
      (submit_move c2_store 1 0 none).2.1 = none) ∧
    (∀ g, get_by_id c2_store 1 = some g → g.status = .in_progress →
      ¬((0 : Int) < 0 ∨ (0 : Int) > 8) →
      (board_to_list g.board).getD (0 : Int).toNat ' ' ≠ ' ' →
      submit_move c2_store 1 0 none = (c2_store, none, some "Cell already occupied")) :=
  C2_validation_failure_no_mutation c2_store 1 0 none

/-! ## Claim C1: reachable-state invariants -/

/-- Game states reachable from a newly created game by accepted moves. -/
inductive Reachable : Game → Prop where
  | created : ∀ (id : Int) (player_x_id player_o_id : Option Int),
      Reachable (create_new_game id player_x_id player_o_id)
  | moved : ∀ (g : Game) (position : Int) (player_id : Option Int) (g2 : Game),
      Reachable g → apply_move_game g position player_id = .ok g2 → Reachable g2

theorem classify_status_winner_iff {board : String} (hv : valid_board board) :
    (classify_status board).2 ≠ none ↔
      (classify_status board).1 = .x_won ∨ (classify_status board).1 = .o_won := by
  simp only [classify_status]
  cases hdet : detect_winner board with
  | none =>
    rw [if_neg (by simp), if_neg (by simp)]
    constructor
    · intro h
      exact absurd rfl h
    · rintro (h | h) <;> split at h <;> cases h
  | some m =>
    rw [detect_winner] at hdet
    obtain ⟨t, ht, hw⟩ := List.exists_of_findSome?_eq_some hdet
    have hfm := line_winner_eq_some_iff.mp hw
    rcases line_mark_X_or_O hv hfm with rfl | rfl
    · simp
    · simp [(by decide : ('O' : Char) ≠ 'X')]

theorem reachable_inv {g : Game} (h : Reachable g) :
    g.board.length = 9 ∧ valid_board g.board ∧
    (count_char g.board 'X' = count_char g.board 'O' ∨
      count_char g.board 'X' = count_char g.board 'O' + 1) ∧
    (g.winner ≠ none ↔ g.status = .x_won ∨ g.status = .o_won) := by
  induction h with
  | created id px po =>
    exact ⟨rfl, (by decide : valid_board "         "),
      Or.inl (by decide : count_char "         " 'X' = count_char "         " 'O'),
      by simp [create_new_game]⟩
  | moved g position player_id g2 hreach happ ih =>
    obtain ⟨hlen, hvalid, hcount, hwin⟩ := ih
    obtain ⟨hstat, hrange, hempty, hturn, rfl⟩ := apply_move_game_ok_iff.mp happ
    push_neg at hrange
    obtain ⟨hr1, hr2⟩ := hrange
    have hlen' : (board_to_list g.board).length = 9 := hlen
    have hpos : position.toNat < (board_to_list g.board).length := by
      rw [hlen']
      omega
    have hcell : (board_to_list g.board)[position.toNat] = ' ' := by
      have h2 := hempty
      rw [List.getD_eq_getElem?_getD, List.getElem?_eq_getElem hpos] at h2
      exact h2
    have hcnt : ∀ c : Char, count_char (next_board g position) c =
        count_char g.board c - (if (' ' : Char) == c then 1 else 0) +
          (if compute_current_player g.board == c then 1 else 0) := by
      intro c
      have h3 := List.count_set (compute_current_player g.board) c
        (board_to_list g.board) position.toNat hpos
      rw [hcell] at h3
      exact h3
    have hlen2 : (next_board g position).length = 9 := by
      show ((board_to_list g.board).set position.toNat
        (compute_current_player g.board)).length = 9
      rw [List.length_set]
      exact hlen'
    have hvalid2 : valid_board (next_board g position) := by
      intro c hc
      have hc2 : c ∈ (board_to_list g.board).set position.toNat
          (compute_current_player g.board) := hc
      rcases List.mem_or_eq_of_mem_set hc2 with hmem | rfl
      · exact hvalid c hmem
      · rcases compute_current_player_cases g.board with hm | hm <;> rw [hm] <;> decide
    have hcount2 : count_char (next_board g position) 'X' =
          count_char (next_board g position) 'O' ∨
        count_char (next_board g position) 'X' =
          count_char (next_board g position) 'O' + 1 := by
      rcases compute_current_player_cases g.board with hm | hm
      · have hceq : count_char g.board 'X' = count_char g.board 'O' := by
          by_contra hne
          rw [compute_current_player, if_neg hne] at hm
          exact absurd hm (by decide)
        have e1 := hcnt 'X'
        have e2 := hcnt 'O'
        rw [hm, if_neg (by decide), if_pos (by decide)] at e1
        rw [hm, if_neg (by decide), if_neg (by decide)] at e2
        omega
      · have hcne : count_char g.board 'X' = count_char g.board 'O' + 1 := by
          rcases hcount with hc0 | hc0
          · exfalso
            rw [compute_current_player, if_pos hc0] at hm
            exact absurd hm (by decide)
          · exact hc0
        have e1 := hcnt 'X'
        have e2 := hcnt 'O'
        rw [hm, if_neg (by decide), if_neg (by decide)] at e1
        rw [hm, if_neg (by decide), if_pos (by decide)] at e2
        omega
    exact ⟨hlen2, hvalid2, hcount2, classify_status_winner_iff hvalid2⟩

/-- C1: every state reachable from a newly created game (all-blank board,
in-progress status) by accepted moves has a board of length exactly 9, X
and O counts differing by 0 or 1, and a non-null stored winner iff the
stored status is X-won or O-won; moreover each accepted move from such a
state turns exactly one blank cell into the inferred non-blank mark,
leaving every other cell unchanged (the new board is the old board with
that one position set). -/
theorem C1_reachable_invariants (g : Game) (h : Reachable g) :
    g.board.length = 9 ∧
    (count_char g.board 'X' = count_char g.board 'O' ∨
      count_char g.board 'X' = count_char g.board 'O' + 1) ∧
    (g.winner ≠ none ↔ g.status = .x_won ∨ g.status = .o_won) ∧
    ∀ (position : Int) (player_id : Option Int) (g2 : Game),
      apply_move_game g position player_id = .ok g2 →
      (board_to_list g.board).getD position.toNat ' ' = ' ' ∧
      compute_current_player g.board ≠ ' ' ∧
      board_to_list g2.board =
        (board_to_list g.board).set position.toNat (compute_current_player g.board) := by
  obtain ⟨hlen, hvalid, hcount, hwin⟩ := reachable_inv h
  refine ⟨hlen, hcount, hwin, ?_⟩
  intro position player_id g2 happ
  obtain ⟨-, -, hempty, -, rfl⟩ := apply_move_game_ok_iff.mp happ
  refine ⟨hempty, ?_, rfl⟩
  rcases compute_current_player_cases g.board with hm | hm <;> rw [hm] <;> decide

/-- Witness for C1 at the freshly created anonymous game 1. -/
theorem C1_witness :
    (create_new_game 1 none none).board.length = 9 ∧
    (count_char (create_new_game 1 none none).board 'X' =
        count_char (create_new_game 1 none none).board 'O' ∨
      count_char (create_new_game 1 none none).board 'X' =
        count_char (create_new_game 1 none none).board 'O' + 1) ∧
    ((create_new_game 1 none none).winner ≠ none ↔
      (create_new_game 1 none none).status = .x_won ∨
      (create_new_game 1 none none).status = .o_won) ∧
    ∀ (position : Int) (player_id : Option Int) (g2 : Game),
      apply_move_game (create_new_game 1 none none) position player_id = .ok g2 →
      (board_to_list (create_new_game 1 none none).board).getD position.toNat ' ' = ' ' ∧
      compute_current_player (create_new_game 1 none none).board ≠ ' ' ∧
      board_to_list g2.board =
        (board_to_list (create_new_game 1 none none).board).set position.toNat
          (compute_current_player (create_new_game 1 none none).board) :=
  C1_reachable_invariants (create_new_game 1 none none) (Reachable.created 1 none none)

/-! ## Claim C9: leaderboard -/

/-- Python `d.get(u, 0)` on a username-keyed counter dict, modelled as an
association list in insertion order. -/
def dictGet (d : List (String × Nat)) (u : String) : Nat :=
  match d.find? (fun e => e.1 == u) with
  | some e => e.2
  | none => 0

/-- Python `d[u] = v`: update the existing key in place, else append in
insertion order. -/
def dictSet : List (String × Nat) → String → Nat → List (String × Nat)
  | [], u, v => [(u, v)]
  | e :: es, u, v => if e.1 == u then (u, v) :: es else e :: dictSet es u v

/-- Python `d[u] = d.get(u, 0) + 1`. -/
def dictIncr (d : List (String × Nat)) (u : String) : List (String × Nat) :=
  dictSet d u (dictGet d u + 1)

/-- The keys of a counter dict (`d.keys()`), in insertion order. -/
def dkeys (d : List (String × Nat)) : List String :=
  d.map Prod.fst

/-- `session.get(Player, player_id)` / `PlayerRepository.get_by_id`:
primary-key lookup. -/
def getPlayer (players : List PlayerRec) (player_id : Int) : Option PlayerRec :=
  players.find? (fun p => p.id == player_id)

/-- The winner-resolution step of `LeaderboardService.compute`
(`repositories.py` lines 131-138): the winning side's player id, when
truthy, resolved to a username. -/
def winner_username (players : List PlayerRec) (g : Game) : Option String :=
  if g.status = .x_won ∧ truthyInt g.player_x_id then
    match g.player_x_id with
    | some pid => (getPlayer players pid).map (fun p => p.username)
    | none => none
  else if g.status = .o_won ∧ truthyInt g.player_o_id then
    match g.player_o_id with
    | some pid => (getPlayer players pid).map (fun p => p.username)
    | none => none
  else none

/-- One iteration of the wins loop of `LeaderboardService.compute`
(`repositories.py` lines 130-140): count a win for the resolved winner
username when it is truthy (non-`None`, non-empty). -/
def winsStep (players : List PlayerRec) (wins : List (String × Nat)) (g : Game) :
    List (String × Nat) :=
  if g.status = .x_won ∨ g.status = .o_won then
    match winner_username players g with
    | some u => if u = "" then wins else dictIncr wins u
    | none => wins
  else wins

/-- The `wins` dict built by the scan loop of `LeaderboardService.compute`. -/
def wins_dict (players : List PlayerRec) (games : List Game) : List (String × Nat) :=
  games.foldl (winsStep players) []

/-- `LeaderboardService.compute` (`repositories.py` lines 125-143): scan all
games counting wins per resolved winner username, sort by win count
descending (Python's `sorted` with `reverse=True` is a stable sort, here
`List.insertionSort`), and cap the result at `limit` entries. -/
def leaderboard_compute (players : List PlayerRec) (games : List Game) (limit : Nat) :
    List (String × Nat) :=
  ((wins_dict players games).insertionSort (fun a b => b.2 ≤ a.2)).take limit

/-- `username_for` from the leaderboard endpoint (`main.py` lines 261-270):
resolve an optional player id to a username, with Python falsiness on the
id (`if not player_id`). -/
def username_for (players : List PlayerRec) (player_id : Option Int) : Option String :=
  match player_id with
  | none => none
  | some pid =>
    if pid = 0 then none else (getPlayer players pid).map (fun p => p.username)

/-- One iteration of the losses/draws loop of the leaderboard endpoint
(`main.py` lines 272-290), acting on the pair (losses_map, draws_map). -/
def loss_draw_step (players : List PlayerRec)
    (maps : List (String × Nat) × List (String × Nat)) (g : Game) :
    List (String × Nat) × List (String × Nat) :=
  if g.status = .draw then
    let ux := username_for players g.player_x_id
    let uo := username_for players g.player_o_id
    let d1 := match ux with
      | some u => if u = "" then maps.2 else dictIncr maps.2 u
      | none => maps.2
    let d2 := match uo with
      | some u => if u = "" then d1 else dictIncr d1 u
      | none => d1
    (maps.1, d2)
  else if g.status = .x_won ∨ g.status = .o_won then
    let ux := username_for players g.player_x_id
    let uo := username_for players g.player_o_id
    if g.status = .x_won then
      (match uo with
       | some u => if u = "" then maps.1 else dictIncr maps.1 u
       | none => maps.1,
       maps.2)
    else if g.status = .o_won then
      (match ux with
       | some u => if u = "" then maps.1 else dictIncr maps.1 u
       | none => maps.1,
       maps.2)
    else maps
  else maps

/-- `GameRepository.list` (`repositories.py` lines 89-92): games ordered by
id descending, then offset and limit applied. -/
def games_list (games : List Game) (limit offset : Nat) : List Game :=
  (((games.insertionSort (fun a b => b.id ≤ a.id)).drop offset).take limit)

/-- A leaderboard row of the API response (`LeaderboardEntry` in
`main.py`). -/
structure LeaderboardEntry where
  username : String
  wins : Nat
  losses : Nat
  draws : Nat
  score : Nat
  deriving DecidableEq, Repr

/-- The `leaderboard` endpoint (`main.py` lines 242-303): wins from
`LeaderboardService.compute` capped at 1000 usernames, losses and draws
from a scan of the newest 10000 games, combined over the deduplicated
username set sorted ascending, with score `wins*3 + draws*1 + losses*0`. -/
def leaderboard (players : List PlayerRec) (games : List Game) :
    List LeaderboardEntry :=
  let win_list := leaderboard_compute players games 1000
  let wins_map := win_list.foldl (fun d e => dictSet d e.1 e.2) []
  let games2 := games_list games 10000 0
  let maps := games2.foldl (loss_draw_step players) ([], [])
  let usernames := (dkeys wins_map ++ dkeys maps.1 ++ dkeys maps.2).dedup
  let sorted_names := usernames.insertionSort (fun a b : String => a ≤ b)
  sorted_names.map (fun u =>
    { username := u, wins := dictGet wins_map u, losses := dictGet maps.1 u,
      draws := dictGet maps.2 u,
      score := dictGet wins_map u * 3 + dictGet maps.2 u * 1 })

/-! ### Association-list dictionary lemmas -/

theorem dictGet_nil {u : String} : dictGet [] u = 0 :=
  rfl

theorem dictGet_cons {e : String × Nat} {es : List (String × Nat)} {u : String} :
    dictGet (e :: es) u = if e.1 = u then e.2 else dictGet es u := by
  by_cases h : e.1 = u
  · rw [if_pos h, dictGet, List.find?_cons_of_pos _ (by simp [h])]
  · rw [if_neg h, dictGet, List.find?_cons_of_neg _ (by simp [h])]
    rfl

theorem dictGet_eq_zero_of_not_mem : ∀ {d : List (String × Nat)} {u : String},
    u ∉ dkeys d → dictGet d u = 0
  | [], _, _ => rfl
  | e :: es, u, h => by
    rw [dkeys, List.map_cons, List.mem_cons] at h
    push_neg at h
    rw [dictGet_cons, if_neg (fun he => h.1 he.symm),
      dictGet_eq_zero_of_not_mem h.2]

theorem dictGet_dictSet_self : ∀ {d : List (String × Nat)} {u : String} {v : Nat},
    dictGet (dictSet d u v) u = v
  | [], u, v => by rw [dictSet, dictGet_cons, if_pos rfl]
  | e :: es, u, v => by
    rw [dictSet]
    by_cases h : e.1 = u
    · rw [if_pos (by simp [h]), dictGet_cons, if_pos rfl]
    · rw [if_neg (by simp [h]), dictGet_cons, if_neg h, dictGet_dictSet_self]

theorem dictGet_dictSet_ne : ∀ {d : List (String × Nat)} {u w : String} {v : Nat},
    w ≠ u → dictGet (dictSet d u v) w = dictGet d w
  | [], u, w, v, hw => by
    rw [dictSet, dictGet_cons, if_neg (fun h => hw h.symm), dictGet_nil]
  | e :: es, u, w, v, hw => by
    rw [dictSet]
    by_cases h : e.1 = u
    · rw [if_pos (by simp [h]), dictGet_cons, if_neg (fun h2 => hw h2.symm),
        dictGet_cons, if_neg (fun h2 => hw (h2.symm.trans h))]
    · rw [if_neg (by simp [h]), dictGet_cons, dictGet_cons,
        dictGet_dictSet_ne hw]

theorem mem_dkeys_dictSet : ∀ {d : List (String × Nat)} {u w : String} {v : Nat},
    w ∈ dkeys (dictSet d u v) ↔ w ∈ dkeys d ∨ w = u
  | [], u, w, v => by simp [dictSet, dkeys]
  | e :: es, u, w, v => by
    rw [dictSet]
    by_cases h : e.1 = u
    · rw [if_pos (by simp [h])]
      simp [dkeys, h]
      tauto
    · rw [if_neg (by simp [h])]
      simp only [dkeys, List.map_cons, List.mem_cons] at *
      rw [show (dictSet es u v).map Prod.fst = dkeys (dictSet es u v) from rfl]
      rw [mem_dkeys_dictSet]
      simp [dkeys]
      tauto

theorem nodup_dkeys_dictSet : ∀ {d : List (String × Nat)} {u : String} {v : Nat},
    (dkeys d).Nodup → (dkeys (dictSet d u v)).Nodup
  | [], u, v, _ => by simp [dictSet, dkeys]
  | e :: es, u, v, hnd => by
    rw [dkeys, List.map_cons, List.nodup_cons] at hnd
    rw [dictSet]
    by_cases h : e.1 = u
    · rw [if_pos (by simp [h])]
      rw [dkeys, List.map_cons, List.nodup_cons]
      exact ⟨h ▸ hnd.1, hnd.2⟩
    · rw [if_neg (by simp [h])]
      rw [dkeys, List.map_cons, List.nodup_cons]
      refine ⟨fun hm => ?_, nodup_dkeys_dictSet hnd.2⟩
      rcases mem_dkeys_dictSet.mp hm with hm2 | rfl
      · exact hnd.1 hm2
      · exact h rfl

theorem dictGet_dictIncr_self {d : List (String × Nat)} {u : String} :
    dictGet (dictIncr d u) u = dictGet d u + 1 :=
  dictGet_dictSet_self

theorem dictGet_dictIncr_ne {d : List (String × Nat)} {u w : String} (hw : w ≠ u) :
    dictGet (dictIncr d u) w = dictGet d w :=
  dictGet_dictSet_ne hw

theorem mem_dkeys_dictIncr {d : List (String × Nat)} {u w : String} :
    w ∈ dkeys (dictIncr d u) ↔ w ∈ dkeys d ∨ w = u :=
  mem_dkeys_dictSet

theorem nodup_dkeys_dictIncr {d : List (String × Nat)} {u : String}
    (h : (dkeys d).Nodup) : (dkeys (dictIncr d u)).Nodup :=
  nodup_dkeys_dictSet h

theorem dictSet_not_mem : ∀ {d : List (String × Nat)} {u : String} {v : Nat},
    u ∉ dkeys d → dictSet d u v = d ++ [(u, v)]
  | [], _, _, _ => rfl
  | e :: es, u, v, h => by
    rw [dkeys, List.map_cons, List.mem_cons] at h
    push_neg at h
    rw [dictSet, if_neg (by simp only [beq_iff_eq]; exact fun h2 => h.1 h2.symm),
      dictSet_not_mem h.2, List.cons_append]

theorem dictIncr_not_mem {d : List (String × Nat)} {u : String}
    (h : u ∉ dkeys d) : dictIncr d u = d ++ [(u, 1)] := by
  rw [dictIncr, dictGet_eq_zero_of_not_mem h, dictSet_not_mem h]

/-! ### Characterizing the three counting loops -/

/-- The username, if any, whose win counter one `winsStep` iteration bumps. -/
def wins_key (players : List PlayerRec) (g : Game) : Option String :=
  match winner_username players g with
  | some u => if u = "" then none else some u
  | none => none

/-- The losing side's resolved username of a decisive stored game. -/
def loser_username (players : List PlayerRec) (g : Game) : Option String :=
  if g.status = .x_won then username_for players g.player_o_id
  else if g.status = .o_won then username_for players g.player_x_id
  else none

/-- The username, if any, whose loss counter one `loss_draw_step` bumps. -/
def loss_key (players : List PlayerRec) (g : Game) : Option String :=
  match loser_username players g with
  | some u => if u = "" then none else some u
  | none => none

/-- The usernames (one per present resolved side) whose draw counters one
`loss_draw_step` bumps. -/
def draw_keys (players : List PlayerRec) (g : Game) : List String :=
  if g.status = .draw then
    (match username_for players g.player_x_id with
     | some u => if u = "" then [] else [u]
     | none => []) ++
    (match username_for players g.player_o_id with
     | some u => if u = "" then [] else [u]
     | none => [])
  else []

theorem winner_username_eq_none_of_not_won {players : List PlayerRec} {g : Game}
    (h : ¬(g.status = .x_won ∨ g.status = .o_won)) : winner_username players g = none := by
  push_neg at h
  rw [winner_username, if_neg (fun hc => h.1 hc.1), if_neg (fun hc => h.2 hc.1)]

theorem winsStep_eq (players : List PlayerRec) (wins : List (String × Nat)) (g : Game) :
    winsStep players wins g =
      match wins_key players g with
      | some u => dictIncr wins u
      | none => wins := by
  rw [winsStep, wins_key]
  by_cases hw : g.status = .x_won ∨ g.status = .o_won
  · rw [if_pos hw]
    cases hu : winner_username players g with
    | none => rfl
    | some u =>
      show (if u = "" then wins else dictIncr wins u) =
        match (if u = "" then none else some u : Option String) with
        | some v => dictIncr wins v
        | none => wins
      by_cases he : u = ""
      · rw [if_pos he, if_pos he]
      · rw [if_neg he, if_neg he]
  · rw [if_neg hw, winner_username_eq_none_of_not_won hw]

theorem loss_draw_step_fst (players : List PlayerRec)
    (maps : List (String × Nat) × List (String × Nat)) (g : Game) :
    (loss_draw_step players maps g).1 =
      match loss_key players g with
      | some u => dictIncr maps.1 u
      | none => maps.1 := by
  rw [loss_draw_step, loss_key, loser_username]
  cases hst : g.status with
  | in_progress => simp
  | draw => simp
  | x_won =>
    cases huo : username_for players g.player_o_id with
    | none => simp [huo]
    | some u => by_cases he : u = "" <;> simp [huo, he]
  | o_won =>
    cases hux : username_for players g.player_x_id with
    | none => simp [hux]
    | some u => by_cases he : u = "" <;> simp [hux, he]

theorem loss_draw_step_snd (players : List PlayerRec)
    (maps : List (String × Nat) × List (String × Nat)) (g : Game) :
    (loss_draw_step players maps g).2 =
      (draw_keys players g).foldl dictIncr maps.2 := by
  rw [loss_draw_step, draw_keys]
  cases hst : g.status with
  | in_progress => simp
  | x_won => simp
  | o_won => simp
  | draw =>
    cases hux : username_for players g.player_x_id with
    | none =>
      cases huo : username_for players g.player_o_id with
      | none => simp [hux, huo]
      | some w => by_cases hw : w = "" <;> simp [hux, huo, hw]
    | some u =>
      by_cases hu : u = ""
      · cases huo : username_for players g.player_o_id with
        | none => simp [hux, huo, hu]
        | some w => by_cases hw : w = "" <;> simp [hux, huo, hu, hw]
      · cases huo : username_for players g.player_o_id with
        | none => simp [hux, huo, hu]
        | some w => by_cases hw : w = "" <;> simp [hux, huo, hu, hw]

/-! ### Generic fold lemmas over the counter dicts -/

theorem dictGet_foldl_optkey {α : Type} (key : α → Option String) :
    ∀ (l : List α) (d : List (String × Nat)) (u : String),
      dictGet (l.foldl (fun d g => match key g with
        | some v => dictIncr d v
        | none => d) d) u =
      dictGet d u + l.countP (fun g => key g == some u)
  | [], d, u => by simp
  | a :: l, d, u => by
    rw [List.foldl_cons, List.countP_cons, dictGet_foldl_optkey key l _ u]
    cases hk : key a with
    | none => simp [hk]
    | some v =>
      by_cases hv : v = u
      · subst hv
        rw [dictGet_dictIncr_self]
        simp [hk]
        omega
      · rw [dictGet_dictIncr_ne (Ne.symm hv)]
        simp [hk, hv]

theorem mem_dkeys_foldl_optkey {α : Type} (key : α → Option String) :
    ∀ (l : List α) (d : List (String × Nat)) (u : String),
      u ∈ dkeys (l.foldl (fun d g => match key g with
        | some v => dictIncr d v
        | none => d) d) ↔
      u ∈ dkeys d ∨ ∃ g ∈ l, key g = some u
  | [], d, u => by simp
  | a :: l, d, u => by
    rw [List.foldl_cons, mem_dkeys_foldl_optkey key l _ u]
    cases hk : key a with
    | none =>
      constructor
      · rintro (h | ⟨g, hg, hkey⟩)
        · exact Or.inl h
        · exact Or.inr ⟨g, List.mem_cons_of_mem _ hg, hkey⟩
      · rintro (h | ⟨g, hg, hkey⟩)
        · exact Or.inl h
        · rcases List.mem_cons.mp hg with rfl | hg2
          · rw [hk] at hkey
            cases hkey
          · exact Or.inr ⟨g, hg2, hkey⟩
    | some v =>
      rw [show dkeys (match (some v : Option String) with
            | some v => dictIncr d v
            | none => d) = dkeys (dictIncr d v) from rfl]
      rw [mem_dkeys_dictIncr]
      constructor
      · rintro ((h | rfl) | ⟨g, hg, hkey⟩)
        · exact Or.inl h
        · exact Or.inr ⟨a, List.mem_cons_self _ _, hk⟩
        · exact Or.inr ⟨g, List.mem_cons_of_mem _ hg, hkey⟩
      · rintro (h | ⟨g, hg, hkey⟩)
        · exact Or.inl (Or.inl h)
        · rcases List.mem_cons.mp hg with rfl | hg2
          · rw [hk] at hkey
            exact Or.inl (Or.inr (Option.some.inj hkey).symm)
          · exact Or.inr ⟨g, hg2, hkey⟩

theorem nodup_dkeys_foldl_optkey {α : Type} (key : α → Option String) :
    ∀ (l : List α) (d : List (String × Nat)),
      (dkeys d).Nodup →
      (dkeys (l.foldl (fun d g => match key g with
        | some v => dictIncr d v
        | none => d) d)).Nodup
  | [], d, h => h
  | a :: l, d, h => by
    rw [List.foldl_cons]
    cases hk : key a with
    | none => exact nodup_dkeys_foldl_optkey key l d h
    | some v => exact nodup_dkeys_foldl_optkey key l _ (nodup_dkeys_dictIncr h)

theorem dictGet_foldl_incr_list :
    ∀ (ks : List String) (d : List (String × Nat)) (u : String),
      dictGet (ks.foldl dictIncr d) u = dictGet d u + ks.count u
  | [], d, u => by simp
  | k :: ks, d, u => by
    rw [List.foldl_cons, dictGet_foldl_incr_list ks _ u, List.count_cons]
    by_cases hk : k = u
    · subst hk
      rw [dictGet_dictIncr_self]
      simp
      omega
    · rw [dictGet_dictIncr_ne (Ne.symm hk)]
      simp [hk]

theorem mem_dkeys_foldl_incr_list :
    ∀ (ks : List String) (d : List (String × Nat)) (u : String),
      u ∈ dkeys (ks.foldl dictIncr d) ↔ u ∈ dkeys d ∨ u ∈ ks
  | [], d, u => by simp
  | k :: ks, d, u => by
    rw [List.foldl_cons, mem_dkeys_foldl_incr_list ks _ u, mem_dkeys_dictIncr]
    simp only [List.mem_cons]
    tauto

theorem nodup_dkeys_foldl_incr_list :
    ∀ (ks : List String) (d : List (String × Nat)),
      (dkeys d).Nodup → (dkeys (ks.foldl dictIncr d)).Nodup
  | [], _, h => h
  | k :: ks, d, h => by
    rw [List.foldl_cons]
    exact nodup_dkeys_foldl_incr_list ks _ (nodup_dkeys_dictIncr h)

theorem dictGet_foldl_listkey {α : Type} (key : α → List String) :
    ∀ (l : List α) (d : List (String × Nat)) (u : String),
      dictGet (l.foldl (fun d g => (key g).foldl dictIncr d) d) u =
      dictGet d u + (l.map (fun g => (key g).count u)).sum
  | [], d, u => by simp
  | a :: l, d, u => by
    rw [List.foldl_cons, dictGet_foldl_listkey key l _ u, dictGet_foldl_incr_list]
    rw [List.map_cons, List.sum_cons]
    omega

theorem mem_dkeys_foldl_listkey {α : Type} (key : α → List String) :
    ∀ (l : List α) (d : List (String × Nat)) (u : String),
      u ∈ dkeys (l.foldl (fun d g => (key g).foldl dictIncr d) d) ↔
      u ∈ dkeys d ∨ ∃ g ∈ l, u ∈ key g
  | [], d, u => by simp
  | a :: l, d, u => by
    rw [List.foldl_cons, mem_dkeys_foldl_listkey key l _ u, mem_dkeys_foldl_incr_list]
    simp only [List.mem_cons]
    constructor
    · rintro ((h | h) | ⟨g, hg, hkey⟩)
      · exact Or.inl h
      · exact Or.inr ⟨a, Or.inl rfl, h⟩
      · exact Or.inr ⟨g, Or.inr hg, hkey⟩
    · rintro (h | ⟨g, rfl | hg, hkey⟩)
      · exact Or.inl (Or.inl h)
      · exact Or.inl (Or.inr hkey)
      · exact Or.inr ⟨g, hg, hkey⟩

theorem nodup_dkeys_foldl_listkey {α : Type} (key : α → List String) :
    ∀ (l : List α) (d : List (String × Nat)),
      (dkeys d).Nodup →
      (dkeys (l.foldl (fun d g => (key g).foldl dictIncr d) d)).Nodup
  | [], _, h => h
  | a :: l, d, h => by
    rw [List.foldl_cons]
    exact nodup_dkeys_foldl_listkey key l _ (nodup_dkeys_foldl_incr_list _ _ h)

theorem foldl_winsStep_eq (players : List PlayerRec) :
    ∀ (l : List Game) (d : List (String × Nat)),
      l.foldl (winsStep players) d =
      l.foldl (fun d g => match wins_key players g with
        | some v => dictIncr d v
        | none => d) d
  | [], _ => rfl
  | a :: l, d => by
    rw [List.foldl_cons, List.foldl_cons, winsStep_eq,
      foldl_winsStep_eq players l]

theorem foldl_loss_draw_fst (players : List PlayerRec) :
    ∀ (l : List Game) (maps : List (String × Nat) × List (String × Nat)),
      (l.foldl (loss_draw_step players) maps).1 =
      l.foldl (fun d g => match loss_key players g with
        | some v => dictIncr d v
        | none => d) maps.1
  | [], _ => rfl
  | a :: l, maps => by
    rw [List.foldl_cons, List.foldl_cons, foldl_loss_draw_fst players l, loss_draw_step_fst]

theorem foldl_loss_draw_snd (players : List PlayerRec) :
    ∀ (l : List Game) (maps : List (String × Nat) × List (String × Nat)),
      (l.foldl (loss_draw_step players) maps).2 =
      l.foldl (fun d g => (draw_keys players g).foldl dictIncr d) maps.2
  | [], _ => rfl
  | a :: l, maps => by
    rw [List.foldl_cons, List.foldl_cons, foldl_loss_draw_snd players l, loss_draw_step_snd]

/-! ### Lookup stability under permutation and distinct keys -/

theorem eq_of_mem_of_nodup_dkeys : ∀ {d : List (String × Nat)} {e1 e2 : String × Nat},
    (dkeys d).Nodup → e1 ∈ d → e2 ∈ d → e1.1 = e2.1 → e1 = e2
  | a :: es, e1, e2, hnd, h1, h2, hk => by
    rw [dkeys, List.map_cons, List.nodup_cons] at hnd
    rcases List.mem_cons.mp h1 with rfl | h1'
    · rcases List.mem_cons.mp h2 with rfl | h2'
      · rfl
      · exact absurd (by rw [hk]; exact List.mem_map_of_mem Prod.fst h2') hnd.1
    · rcases List.mem_cons.mp h2 with rfl | h2'
      · exact absurd (by rw [← hk]; exact List.mem_map_of_mem Prod.fst h1') hnd.1
      · exact eq_of_mem_of_nodup_dkeys hnd.2 h1' h2' hk

theorem dictGet_eq_of_mem_nodup {d : List (String × Nat)} {u : String} {v : Nat}
    (hnd : (dkeys d).Nodup) (hmem : (u, v) ∈ d) : dictGet d u = v := by
  cases hf : d.find? (fun e => e.1 == u) with
  | none =>
    rw [List.find?_eq_none] at hf
    exact absurd (by simp) (hf (u, v) hmem)
  | some e =>
    have h1 := List.find?_some hf
    have h2 := List.mem_of_find?_eq_some hf
    have h3 : e = (u, v) :=
      eq_of_mem_of_nodup_dkeys hnd h2 hmem (by simpa using h1)
    rw [dictGet, hf, h3]

theorem mem_dkeys_iff_exists {d : List (String × Nat)} {u : String} :
    u ∈ dkeys d ↔ ∃ v, (u, v) ∈ d := by
  rw [dkeys]
  constructor
  · intro h
    rcases List.mem_map.mp h with ⟨e, he, hk⟩
    refine ⟨e.2, ?_⟩
    rwa [show (u, e.2) = e from by rw [← hk]]
  · rintro ⟨v, hv⟩
    exact List.mem_map_of_mem Prod.fst hv

theorem dictGet_eq_of_perm {d d' : List (String × Nat)} (hp : d.Perm d')
    (hnd : (dkeys d).Nodup) (u : String) : dictGet d u = dictGet d' u := by
  have hnd' : (dkeys d').Nodup := ((hp.map Prod.fst).nodup_iff).mp hnd
  by_cases hm : u ∈ dkeys d
  · rcases mem_dkeys_iff_exists.mp hm with ⟨v, hv⟩
    rw [dictGet_eq_of_mem_nodup hnd hv, dictGet_eq_of_mem_nodup hnd' (hp.subset hv)]
  · have hm' : u ∉ dkeys d' := fun h => hm ((hp.map Prod.fst).mem_iff.mpr h)
    rw [dictGet_eq_zero_of_not_mem hm, dictGet_eq_zero_of_not_mem hm']

theorem dictGet_foldl_dictSet_of_not_mem :
    ∀ {l : List (String × Nat)} (acc : List (String × Nat)) {u : String},
      u ∉ dkeys l →
      dictGet (l.foldl (fun d e => dictSet d e.1 e.2) acc) u = dictGet acc u
  | [], _, _, _ => rfl
  | e :: l, acc, u, h => by
    rw [dkeys, List.map_cons, List.mem_cons] at h
    push_neg at h
    rw [List.foldl_cons, dictGet_foldl_dictSet_of_not_mem _ h.2, dictGet_dictSet_ne h.1]

theorem dictGet_foldl_dictSet_of_mem :
    ∀ {l : List (String × Nat)} (acc : List (String × Nat)) {u : String} {v : Nat},
      (dkeys l).Nodup → (u, v) ∈ l →
      dictGet (l.foldl (fun d e => dictSet d e.1 e.2) acc) u = v
  | e :: l, acc, u, v, hnd, hm => by
    rw [dkeys, List.map_cons, List.nodup_cons] at hnd
    rcases List.mem_cons.mp hm with rfl | hm'
    · rw [List.foldl_cons,
        dictGet_foldl_dictSet_of_not_mem _ (by exact hnd.1), dictGet_dictSet_self]
    · rw [List.foldl_cons, dictGet_foldl_dictSet_of_mem _ hnd.2 hm']

theorem dictGet_foldl_dictSet_eq {l : List (String × Nat)}
    (hnd : (dkeys l).Nodup) (u : String) :
    dictGet (l.foldl (fun d e => dictSet d e.1 e.2) []) u = dictGet l u := by
  by_cases hm : u ∈ dkeys l
  · rcases mem_dkeys_iff_exists.mp hm with ⟨v, hv⟩
    rw [dictGet_foldl_dictSet_of_mem _ hnd hv, dictGet_eq_of_mem_nodup hnd hv]
  · rw [dictGet_foldl_dictSet_of_not_mem _ hm, dictGet_eq_zero_of_not_mem hm, dictGet_nil]

theorem mem_dkeys_foldl_dictSet :
    ∀ {l : List (String × Nat)} (acc : List (String × Nat)) (u : String),
      u ∈ dkeys (l.foldl (fun d e => dictSet d e.1 e.2) acc) ↔
        u ∈ dkeys acc ∨ u ∈ dkeys l
  | [], acc, u => by simp [dkeys]
  | e :: l, acc, u => by
    rw [List.foldl_cons, mem_dkeys_foldl_dictSet _ u, mem_dkeys_dictSet]
    rw [show dkeys (e :: l) = e.1 :: dkeys l from rfl, List.mem_cons]
    tauto

/-! ### Spec-level counting of wins, losses and draws -/

/-- The number of stored games whose winning side resolves to username `u`. -/
def winCount (players : List PlayerRec) (games : List Game) (u : String) : Nat :=
  games.countP (fun g => winner_username players g == some u)

/-- The number of stored decisive games whose losing side resolves to `u`. -/
def lossCount (players : List PlayerRec) (games : List Game) (u : String) : Nat :=
  games.countP (fun g => loser_username players g == some u)

/-- The number of draw increments `u` receives: one per present resolved
side of each drawn game (two when both sides of a drawn game resolve to
`u`). -/
def drawCount (players : List PlayerRec) (games : List Game) (u : String) : Nat :=
  games.countP (fun g =>
    decide (g.status = .draw) && (username_for players g.player_x_id == some u)) +
  games.countP (fun g =>
    decide (g.status = .draw) && (username_for players g.player_o_id == some u))

/-! ### The C9 counterexample instance: 1001 distinct winners -/

/-- Username of the i-th counterexample player: i+1 copies of 'a', so all
usernames are distinct and non-empty. -/
def cex_name (i : Nat) : String :=
  String.mk (List.replicate (i + 1) 'a')

/-- The i-th counterexample player row. -/
def cex_player (i : Nat) : PlayerRec :=
  { id := Int.ofNat (i + 1), username := cex_name i }

/-- The i-th counterexample game: X-won by player i+1, no O player. -/
def cex_game (i : Nat) : Game :=
  { id := Int.ofNat (i + 1), board := "XXXOO    ", status := .x_won, winner := some 'X',
    player_x_id := some (Int.ofNat (i + 1)), player_o_id := none }

/-- 1001 players with distinct usernames. -/
def cex_players : List PlayerRec :=
  (List.range 1001).map cex_player

/-- 1001 stored games, each won by a distinct player. -/
def cex_games : List Game :=
  (List.range 1001).map cex_game

/-- The winner username the capped leaderboard drops: the last-scanned one. -/
def cex_dropped : String :=
  cex_name 1000

theorem cex_name_inj {i j : Nat} (h : cex_name i = cex_name j) : i = j := by
  have h2 : List.replicate (i + 1) 'a' = List.replicate (j + 1) 'a' :=
    congrArg String.data h
  have h3 := congrArg List.length h2
  simp only [List.length_replicate] at h3
  omega

theorem cex_name_ne_empty (i : Nat) : cex_name i ≠ "" := by
  intro h
  have h2 : List.replicate (i + 1) 'a' = ([] : List Char) := congrArg String.data h
  have h3 := congrArg List.length h2
  simp at h3

theorem find?_map_range' {α : Type} (f : Nat → α) (p : α → Bool) :
    ∀ (n s i : Nat), s ≤ i → i < s + n →
      (∀ j, s ≤ j → j < i → p (f j) = false) → p (f i) = true →
      ((List.range' s n).map f).find? p = some (f i)
  | 0, s, i, h1, h2, _, _ => absurd h2 (by omega)
  | n + 1, s, i, h1, h2, hb, hp => by
    rw [List.range'_succ, List.map_cons]
    by_cases hsi : s = i
    · subst hsi
      rw [List.find?_cons_of_pos _ hp]
    · rw [List.find?_cons_of_neg _ (by rw [hb s le_rfl (by omega)]; simp)]
      exact find?_map_range' f p n (s + 1) i (by omega) (by omega)
        (fun j hj1 hj2 => hb j (by omega) hj2) hp

theorem countP_map_range'_single {α : Type} (f : Nat → α) (p : α → Bool) :
    ∀ (n s i : Nat), s ≤ i → i < s + n →
      (∀ j, s ≤ j → j < s + n → (p (f j) = true ↔ j = i)) →
      ((List.range' s n).map f).countP p = 1
  | 0, s, i, h1, h2, _ => absurd h2 (by omega)
  | n + 1, s, i, h1, h2, hiff => by
    rw [List.range'_succ, List.map_cons, List.countP_cons]
    by_cases hsi : s = i
    · subst hsi
      rw [if_pos ((hiff s le_rfl (by omega)).mpr rfl)]
      have hz : ((List.range' (s + 1) n).map f).countP p = 0 := by
        rw [List.countP_eq_zero]
        intro a ha hpa
        rcases List.mem_map.mp ha with ⟨j, hj, rfl⟩
        rcases List.mem_range'.mp hj with ⟨k, hk, rfl⟩
        have := (hiff (s + 1 + 1 * k) (by omega) (by omega)).mp hpa
        omega
      omega
    · have hps : p (f s) = false := by
        cases hps0 : p (f s) with
        | false => rfl
        | true => exact absurd ((hiff s le_rfl (by omega)).mp hps0) hsi
      rw [hps]
      have hrec := countP_map_range'_single f p n (s + 1) i (by omega) (by omega)
        (fun j hj1 hj2 => hiff j (by omega) (by omega))
      simp only [Bool.false_eq_true, if_false]
      omega

theorem getPlayer_cex {i : Nat} (hi : i < 1001) :
    getPlayer cex_players (Int.ofNat (i + 1)) = some (cex_player i) := by
  rw [getPlayer, cex_players, List.range_eq_range']
  exact find?_map_range' cex_player (fun p => p.id == Int.ofNat (i + 1)) 1001 0 i
    (Nat.zero_le i) (by omega)
    (fun j hj1 hj2 => by
      show (Int.ofNat (j + 1) == Int.ofNat (i + 1)) = false
      rw [beq_eq_false_iff_ne]
      intro hcontra
      have h2 : j + 1 = i + 1 := Int.ofNat_inj.mp hcontra
      omega)
    (by
      show (Int.ofNat (i + 1) == Int.ofNat (i + 1)) = true
      simp)

theorem winner_username_cex {i : Nat} (hi : i < 1001) :
    winner_username cex_players (cex_game i) = some (cex_name i) := by
  have htr : truthyInt (cex_game i).player_x_id = true := by
    show (Int.ofNat (i + 1) != 0) = true
    simp only [bne_iff_ne, ne_eq]
    intro h
    exact Nat.succ_ne_zero i (Int.ofNat_eq_zero.mp h)
  rw [winner_username, if_pos ⟨rfl, htr⟩]
  show (getPlayer cex_players (Int.ofNat (i + 1))).map (fun p => p.username) =
    some (cex_name i)
  rw [getPlayer_cex hi]
  rfl

theorem wins_key_cex {i : Nat} (hi : i < 1001) :
    wins_key cex_players (cex_game i) = some (cex_name i) := by
  rw [wins_key, winner_username_cex hi]
  show (if cex_name i = "" then none else some (cex_name i)) = some (cex_name i)
  rw [if_neg (cex_name_ne_empty i)]

theorem cex_wins_dict_aux :
    ∀ (n s : Nat), s + n ≤ 1001 →
      ∀ (acc : List (String × Nat)),
        (∀ i, s ≤ i → i < s + n → cex_name i ∉ dkeys acc) →
        ((List.range' s n).map cex_game).foldl (winsStep cex_players) acc =
          acc ++ (List.range' s n).map (fun i => (cex_name i, 1))
  | 0, s, _, acc, _ => by simp
  | n + 1, s, hle, acc, hfresh => by
    rw [List.range'_succ, List.map_cons, List.foldl_cons, List.map_cons]
    have hstep : winsStep cex_players acc (cex_game s) = acc ++ [(cex_name s, 1)] := by
      rw [winsStep_eq, wins_key_cex (by omega)]
      show dictIncr acc (cex_name s) = acc ++ [(cex_name s, 1)]
      exact dictIncr_not_mem (hfresh s le_rfl (by omega))
    rw [hstep,
      cex_wins_dict_aux n (s + 1) (by omega) (acc ++ [(cex_name s, 1)]) ?_,
      List.append_assoc]
    · rfl
    · intro i hi1 hi2
      rw [dkeys, List.map_append]
      intro hmem
      rcases List.mem_append.mp hmem with h | h
      · exact hfresh i (by omega) (by omega) h
      · simp only [List.map_cons, List.map_nil, List.mem_singleton] at h
        exact absurd (cex_name_inj h) (by omega)

theorem cex_wins_dict :
    wins_dict cex_players cex_games =
      (List.range 1001).map (fun i => (cex_name i, 1)) := by
  rw [wins_dict, cex_games, List.range_eq_range']
  have h := cex_wins_dict_aux 1001 0 (by omega) []
    (by intro i _ _ hmem; cases hmem)
  simpa using h

theorem sorted_desc_of_const_one {α : Type} (f : α → String) :
    ∀ l : List α, List.Sorted (fun a b : String × Nat => b.2 ≤ a.2)
      (l.map (fun a => (f a, 1)))
  | [] => List.sorted_nil
  | a :: l => by
    rw [List.map_cons]
    refine List.Pairwise.cons ?_ (sorted_desc_of_const_one f l)
    intro b hb
    rcases List.mem_map.mp hb with ⟨c, hc, rfl⟩
    exact le_refl 1

theorem cex_win_list :
    leaderboard_compute cex_players cex_games 1000 =
      (List.range 1000).map (fun i => (cex_name i, 1)) := by
  rw [leaderboard_compute, cex_wins_dict,
    List.Sorted.insertionSort_eq (sorted_desc_of_const_one cex_name _),
    show (1001 : Nat) = 1000 + 1 from rfl, List.range_succ, List.map_append,
    List.take_left' (by simp)]

theorem cex_loss_draw_step_id {maps : List (String × Nat) × List (String × Nat)}
    {g : Game} (hst : g.status = .x_won) (hpo : g.player_o_id = none) :
    loss_draw_step cex_players maps g = maps := by
  rw [loss_draw_step, hst, hpo]
  rw [if_neg (by decide), if_pos (Or.inl rfl), if_pos rfl]
  rfl

theorem cex_loss_draw_fold :
    ∀ (l : List Game), (∀ g ∈ l, g.status = .x_won ∧ g.player_o_id = none) →
      ∀ (maps : List (String × Nat) × List (String × Nat)),
        l.foldl (loss_draw_step cex_players) maps = maps
  | [], _, _ => rfl
  | a :: l, h, maps => by
    rw [List.foldl_cons,
      cex_loss_draw_step_id (h a (List.mem_cons_self a l)).1
        (h a (List.mem_cons_self a l)).2]
    exact cex_loss_draw_fold l (fun g hg => h g (List.mem_cons_of_mem a hg)) maps

theorem games_list_subset {games : List Game} {limit offset : Nat} :
    ∀ g ∈ games_list games limit offset, g ∈ games := by
  intro g hg
  rw [games_list] at hg
  exact (List.perm_insertionSort _ games).subset
    (List.drop_subset _ _ (List.take_subset _ _ hg))

theorem cex_games_flags {g : Game} (hg : g ∈ cex_games) :
    g.status = .x_won ∧ g.player_o_id = none := by
  rcases List.mem_map.mp hg with ⟨i, _, rfl⟩
  exact ⟨rfl, rfl⟩

/-- C9 counterexample: with 1001 stored games each won by a distinct
resolved username, the endpoint's wins pass — `compute(limit=1000)` sorts
the 1001 win counters and truncates to 1000 — silently drops the
last-scanned winner: that username won a stored game, yet no leaderboard
entry carries it, so the output does not award one win per terminal game
to the winner's resolved username for every stored set. -/
theorem C9_counterexample :
    winCount cex_players cex_games cex_dropped = 1 ∧
    (leaderboard cex_players cex_games).find?
      (fun e => e.username == cex_dropped) = none := by
  constructor
  · rw [winCount, cex_games, List.range_eq_range']
    refine countP_map_range'_single cex_game
      (fun g => winner_username cex_players g == some cex_dropped) 1001 0 1000
      (by omega) (by omega) ?_
    intro j hj1 hj2
    show (winner_username cex_players (cex_game j) == some cex_dropped) = true ↔ j = 1000
    rw [winner_username_cex (show j < 1001 by omega)]
    constructor
    · intro h
      have h2 : cex_name j = cex_name 1000 := Option.some.inj (beq_iff_eq.mp h)
      exact cex_name_inj h2
    · rintro rfl
      exact beq_iff_eq.mpr rfl
  · rw [List.find?_eq_none]
    intro e he
    simp only [beq_iff_eq]
    intro hname
    simp only [leaderboard] at he
    rcases List.mem_map.mp he with ⟨u, hu, rfl⟩
    have hueq : u = cex_dropped := hname
    subst hueq
    have hmaps : (games_list cex_games 10000 0).foldl
        (loss_draw_step cex_players) ([], []) = ([], []) :=
      cex_loss_draw_fold _ (fun g hg => cex_games_flags (games_list_subset g hg)) ([], [])
    rw [hmaps] at hu
    have hu2 := (List.perm_insertionSort _ _).mem_iff.mp hu
    rw [List.mem_dedup] at hu2
    rcases List.mem_append.mp hu2 with hu3 | hu3
    · rcases List.mem_append.mp hu3 with hu4 | hu4
      · rcases (mem_dkeys_foldl_dictSet [] cex_dropped).mp hu4 with h5 | h5
        · cases h5
        · rw [cex_win_list, dkeys, List.map_map] at h5
          rcases List.mem_map.mp h5 with ⟨j, hj, hj2⟩
          have hj1000 : j = 1000 := cex_name_inj (hj2 : cex_name j = cex_name 1000)
          rw [hj1000] at hj
          exact absurd (List.mem_range.mp hj) (by omega)
      · exact (List.not_mem_nil _) hu4
    · exact (List.not_mem_nil _) hu3

/-! ### The amended leaderboard correctness -/

theorem username_for_mem {players : List PlayerRec} {pid : Option Int} {u : String}
    (h : username_for players pid = some u) : ∃ p ∈ players, p.username = u := by
  cases pid with
  | none => cases h
  | some n =>
    simp only [username_for] at h
    by_cases hn : n = 0
    · rw [if_pos hn] at h
      cases h
    · rw [if_neg hn] at h
      rcases Option.map_eq_some'.mp h with ⟨p, hp, rfl⟩
      exact ⟨p, List.mem_of_find?_eq_some hp, rfl⟩

theorem winner_username_mem {players : List PlayerRec} {g : Game} {u : String}
    (h : winner_username players g = some u) : ∃ p ∈ players, p.username = u := by
  rw [winner_username] at h
  split_ifs at h with h1 h2
  · cases hpx : g.player_x_id with
    | none => rw [hpx] at h; cases h
    | some pid =>
      rw [hpx] at h
      rcases Option.map_eq_some'.mp h with ⟨p, hp, rfl⟩
      exact ⟨p, List.mem_of_find?_eq_some hp, rfl⟩
  · cases hpo : g.player_o_id with
    | none => rw [hpo] at h; cases h
    | some pid =>
      rw [hpo] at h
      rcases Option.map_eq_some'.mp h with ⟨p, hp, rfl⟩
      exact ⟨p, List.mem_of_find?_eq_some hp, rfl⟩

theorem loser_username_mem {players : List PlayerRec} {g : Game} {u : String}
    (h : loser_username players g = some u) : ∃ p ∈ players, p.username = u := by
  rw [loser_username] at h
  split_ifs at h
  · exact username_for_mem h
  · exact username_for_mem h

theorem wins_key_eq_winner {players : List PlayerRec} {g : Game}
    (husers : ∀ p ∈ players, p.username ≠ "") :
    wins_key players g = winner_username players g := by
  rw [wins_key]
  cases hw : winner_username players g with
  | none => rfl
  | some u =>
    show (if u = "" then none else some u) = some u
    rcases winner_username_mem hw with ⟨p, hp, rfl⟩
    rw [if_neg (husers p hp)]

theorem loss_key_eq_loser {players : List PlayerRec} {g : Game}
    (husers : ∀ p ∈ players, p.username ≠ "") :
    loss_key players g = loser_username players g := by
  rw [loss_key]
  cases hw : loser_username players g with
  | none => rfl
  | some u =>
    show (if u = "" then none else some u) = some u
    rcases loser_username_mem hw with ⟨p, hp, rfl⟩
    rw [if_neg (husers p hp)]

theorem count_uf_list {players : List PlayerRec}
    (husers : ∀ p ∈ players, p.username ≠ "") (pid : Option Int) (u : String) :
    (match username_for players pid with
      | some w => if w = "" then ([] : List String) else [w]
      | none => ([] : List String)).count u =
      if username_for players pid == some u then 1 else 0 := by
  cases hw : username_for players pid with
  | none => simp
  | some w =>
    rcases username_for_mem hw with ⟨p, hp, hpu⟩
    show (if w = "" then ([] : List String) else [w]).count u = _
    rw [if_neg (hpu ▸ husers p hp)]
    by_cases hwu : w = u
    · subst hwu
      simp [List.count_singleton]
    · simp [List.count_singleton, hwu]

theorem draw_keys_count {players : List PlayerRec} {g : Game} {u : String}
    (husers : ∀ p ∈ players, p.username ≠ "") :
    (draw_keys players g).count u =
      (if decide (g.status = .draw) &&
          (username_for players g.player_x_id == some u) then 1 else 0) +
      (if decide (g.status = .draw) &&
          (username_for players g.player_o_id == some u) then 1 else 0) := by
  rw [draw_keys]
  by_cases hd : g.status = .draw
  · rw [if_pos hd, List.count_append,
      count_uf_list husers g.player_x_id u, count_uf_list husers g.player_o_id u]
    simp [hd]
  · rw [if_neg hd]
    simp [hd]

theorem sum_map_add_ite {α : Type} (P Q : α → Bool) :
    ∀ l : List α,
      (l.map (fun g => (if P g then 1 else 0) + (if Q g then 1 else 0))).sum =
        l.countP P + l.countP Q
  | [] => rfl
  | a :: l => by
    rw [List.map_cons, List.sum_cons, sum_map_add_ite P Q l,
      List.countP_cons, List.countP_cons]
    by_cases hP : P a <;> by_cases hQ : Q a <;> simp [hP, hQ] <;> omega

/-- C9 (amended): provided the store holds at most 10000 games and at most
1000 distinct counted winner usernames — the endpoint's hard caps
(`compute(limit=1000)` and `gr.list(limit=10000)`), beyond which data is
silently dropped — and every stored username is non-empty (the schema's
`min_length=1`), the leaderboard counts, per terminal game, one win for
the winner's resolved username, one loss for the losing side's resolved
username when present, and one draw for each present side's resolved
username of a drawn game, skipping only a side whose username does not
resolve; each entry's score is wins*3 + draws*1 + losses*0, the output is
sorted lexicographically by username without duplicates, and every
username with a nonzero count appears. -/
theorem C9_leaderboard_counts (players : List PlayerRec) (games : List Game)
    (hgames : games.length ≤ 10000)
    (hwinners : (wins_dict players games).length ≤ 1000)
    (husers : ∀ p ∈ players, p.username ≠ "") :
    (∀ e ∈ leaderboard players games,
      e.wins = winCount players games e.username ∧
      e.losses = lossCount players games e.username ∧
      e.draws = drawCount players games e.username ∧
      e.score = e.wins * 3 + e.draws * 1) ∧
    List.Pairwise (fun a b : LeaderboardEntry => a.username ≤ b.username)
      (leaderboard players games) ∧
    ((leaderboard players games).map (fun e => e.username)).Nodup ∧
    ∀ u : String,
      0 < winCount players games u + lossCount players games u +
          drawCount players games u →
      ∃ e ∈ leaderboard players games, e.username = u := by
  haveI hTot : IsTotal String (fun a b : String => a ≤ b) := ⟨fun a b => le_total a b⟩
  haveI hTrans : IsTrans String (fun a b : String => a ≤ b) :=
    ⟨fun a b c h1 h2 => le_trans h1 h2⟩
  have hW_nodup : (dkeys (wins_dict players games)).Nodup := by
    rw [wins_dict, foldl_winsStep_eq]
    exact nodup_dkeys_foldl_optkey (wins_key players) games [] List.nodup_nil
  have hW_get : ∀ u, dictGet (wins_dict players games) u = winCount players games u := by
    intro u
    rw [wins_dict, foldl_winsStep_eq, dictGet_foldl_optkey, dictGet_nil, Nat.zero_add,
      winCount]
    simp only [wins_key_eq_winner husers]
  have hW_mem : ∀ u,
      u ∈ dkeys (wins_dict players games) ↔ 0 < winCount players games u := by
    intro u
    rw [wins_dict, foldl_winsStep_eq, mem_dkeys_foldl_optkey, winCount,
      List.countP_pos_iff]
    constructor
    · rintro (h | ⟨g, hg, hkey⟩)
      · exact absurd h (List.not_mem_nil u)
      · refine ⟨g, hg, ?_⟩
        rw [wins_key_eq_winner husers] at hkey
        rw [hkey]
        simp
    · rintro ⟨g, hg, hp⟩
      refine Or.inr ⟨g, hg, ?_⟩
      rw [wins_key_eq_winner husers]
      exact beq_iff_eq.mp hp
  have hwl : leaderboard_compute players games 1000 =
      (wins_dict players games).insertionSort (fun a b => b.2 ≤ a.2) := by
    rw [leaderboard_compute]
    exact List.take_of_length_le
      (le_trans (le_of_eq (List.perm_insertionSort _ _).length_eq) hwinners)
  have hwl_perm :
      (leaderboard_compute players games 1000).Perm (wins_dict players games) := by
    rw [hwl]
    exact List.perm_insertionSort _ _
  have hwl_nodup : (dkeys (leaderboard_compute players games 1000)).Nodup :=
    ((hwl_perm.map Prod.fst).nodup_iff).mpr hW_nodup
  have hwm_get : ∀ u, dictGet ((leaderboard_compute players games 1000).foldl
      (fun d e => dictSet d e.1 e.2) []) u = winCount players games u := by
    intro u
    rw [dictGet_foldl_dictSet_eq hwl_nodup, dictGet_eq_of_perm hwl_perm hwl_nodup,
      hW_get]
  have hwm_mem : ∀ u, u ∈ dkeys ((leaderboard_compute players games 1000).foldl
      (fun d e => dictSet d e.1 e.2) []) ↔ 0 < winCount players games u := by
    intro u
    rw [mem_dkeys_foldl_dictSet]
    constructor
    · rintro (h | h)
      · exact absurd h (List.not_mem_nil u)
      · exact (hW_mem u).mp ((hwl_perm.map Prod.fst).mem_iff.mp h)
    · intro h
      exact Or.inr ((hwl_perm.map Prod.fst).mem_iff.mpr ((hW_mem u).mpr h))
  have hg2_perm : (games_list games 10000 0).Perm games := by
    rw [games_list, List.drop_zero, List.take_of_length_le
      (le_trans (le_of_eq (List.perm_insertionSort _ _).length_eq) hgames)]
    exact List.perm_insertionSort _ _
  have hL_get : ∀ u, dictGet ((games_list games 10000 0).foldl
      (loss_draw_step players) ([], [])).1 u = lossCount players games u := by
    intro u
    rw [foldl_loss_draw_fst, dictGet_foldl_optkey]
    show 0 + _ = _
    rw [Nat.zero_add, lossCount, ← List.Perm.countP_eq _ hg2_perm]
    simp only [loss_key_eq_loser husers]
  have hL_mem : ∀ u, u ∈ dkeys ((games_list games 10000 0).foldl
      (loss_draw_step players) ([], [])).1 ↔ 0 < lossCount players games u := by
    intro u
    rw [foldl_loss_draw_fst, mem_dkeys_foldl_optkey, lossCount,
      ← List.Perm.countP_eq _ hg2_perm, List.countP_pos_iff]
    constructor
    · rintro (h | ⟨g, hg, hkey⟩)
      · exact absurd h (List.not_mem_nil u)
      · refine ⟨g, hg, ?_⟩
        rw [loss_key_eq_loser husers] at hkey
        rw [hkey]
        simp
    · rintro ⟨g, hg, hp⟩
      refine Or.inr ⟨g, hg, ?_⟩
      rw [loss_key_eq_loser husers]
      exact beq_iff_eq.mp hp
  have hD_get : ∀ u, dictGet ((games_list games 10000 0).foldl
      (loss_draw_step players) ([], [])).2 u = drawCount players games u := by
    intro u
    rw [foldl_loss_draw_snd, dictGet_foldl_listkey]
    show 0 + _ = _
    rw [Nat.zero_add]
    simp only [draw_keys_count husers]
    rw [sum_map_add_ite, drawCount,
      ← List.Perm.countP_eq _ hg2_perm, ← List.Perm.countP_eq _ hg2_perm]
  have hD_mem : ∀ u, u ∈ dkeys ((games_list games 10000 0).foldl
      (loss_draw_step players) ([], [])).2 ↔ 0 < drawCount players games u := by
    intro u
    rw [foldl_loss_draw_snd, mem_dkeys_foldl_listkey, drawCount,
      ← List.Perm.countP_eq _ hg2_perm, ← List.Perm.countP_eq _ hg2_perm]
    constructor
    · rintro (h | ⟨g, hg, hkey⟩)
      · exact absurd h (List.not_mem_nil u)
      · have hc : 0 < (draw_keys players g).count u := List.count_pos_iff.mpr hkey
        rw [draw_keys_count husers] at hc
        by_cases hP : (decide (g.status = .draw) &&
            (username_for players g.player_x_id == some u)) = true
        · have h1act : 0 < (games_list games 10000 0).countP
              (fun g => decide (g.status = .draw) &&
                (username_for players g.player_x_id == some u)) :=
            List.countP_pos_iff.mpr ⟨g, hg, hP⟩
          omega
        · by_cases hQ : (decide (g.status = .draw) &&
              (username_for players g.player_o_id == some u)) = true
          · have h2act : 0 < (games_list games 10000 0).countP
                (fun g => decide (g.status = .draw) &&
                  (username_for players g.player_o_id == some u)) :=
              List.countP_pos_iff.mpr ⟨g, hg, hQ⟩
            omega
          · rw [if_neg hP, if_neg hQ] at hc
            omega
    · intro h
      have hsplit : 0 < (games_list games 10000 0).countP
            (fun g => decide (g.status = .draw) &&
              (username_for players g.player_x_id == some u)) ∨
          0 < (games_list games 10000 0).countP
            (fun g => decide (g.status = .draw) &&
              (username_for players g.player_o_id == some u)) := by omega
      rcases hsplit with h1 | h1
      · rcases List.countP_pos_iff.mp h1 with ⟨g, hg, hP⟩
        refine Or.inr ⟨g, hg, ?_⟩
        rw [← List.count_pos_iff, draw_keys_count husers, if_pos hP]
        omega
      · rcases List.countP_pos_iff.mp h1 with ⟨g, hg, hQ⟩
        refine Or.inr ⟨g, hg, ?_⟩
        rw [← List.count_pos_iff, draw_keys_count husers, if_pos hQ]
        omega
  simp only [leaderboard]
  refine ⟨?_, ?_, ?_, ?_⟩
  · intro e he
    rcases List.mem_map.mp he with ⟨u, hu, rfl⟩
    exact ⟨hwm_get u, hL_get u, hD_get u, rfl⟩
  · exact (List.pairwise_map).mpr (List.sorted_insertionSort _ _)
  · rw [List.map_map]
    show (List.map (fun u : String => u) (List.insertionSort (fun a b : String => a ≤ b)
      ((dkeys (List.foldl (fun d e => dictSet d e.1 e.2) []
          (leaderboard_compute players games 1000)) ++
        dkeys (List.foldl (loss_draw_step players) ([], []) (games_list games 10000 0)).1 ++
        dkeys (List.foldl (loss_draw_step players) ([], [])
          (games_list games 10000 0)).2).dedup))).Nodup
    rw [List.map_id']
    exact ((List.perm_insertionSort _ _).nodup_iff).mpr (List.nodup_dedup _)
  · intro u hpos
    have hmem : u ∈ (dkeys ((leaderboard_compute players games 1000).foldl
        (fun d e => dictSet d e.1 e.2) []) ++
        dkeys ((games_list games 10000 0).foldl (loss_draw_step players) ([], [])).1 ++
        dkeys ((games_list games 10000 0).foldl (loss_draw_step players) ([], [])).2) := by
      have h3 : 0 < winCount players games u ∨ 0 < lossCount players games u ∨
          0 < drawCount players games u := by omega
      rcases h3 with h3 | h3 | h3
      · exact List.mem_append_left _ (List.mem_append_left _ ((hwm_mem u).mpr h3))
      · exact List.mem_append_left _ (List.mem_append_right _ ((hL_mem u).mpr h3))
      · exact List.mem_append_right _ ((hD_mem u).mpr h3)
    refine ⟨_, List.mem_map_of_mem _ ?_, rfl⟩
    exact ((List.perm_insertionSort _ _).mem_iff).mpr (List.mem_dedup.mpr hmem)

/-- Players of the spec's leaderboard scenario, used by the C9 witness. -/
def c9w_players : List PlayerRec :=
  [{ id := 1, username := "alice" }, { id := 2, username := "bob" }]

/-- Two finished games — one X-won, one draw, both with both usernames
known — used by the C9 witness. -/
def c9w_games : List Game :=
  [{ id := 1, board := "XXXOO    ", status := .x_won, winner := some 'X',
     player_x_id := some 1, player_o_id := some 2 },
   { id := 2, board := "XOXOXOOXO", status := .draw, winner := none,
     player_x_id := some 1, player_o_id := some 2 }]

/-- Witness for C9 on the spec's two-game scenario, which satisfies all
three hypotheses of the amended theorem. -/
theorem C9_witness :
    (∀ e ∈ leaderboard c9w_players c9w_games,
      e.wins = winCount c9w_players c9w_games e.username ∧
      e.losses = lossCount c9w_players c9w_games e.username ∧
      e.draws = drawCount c9w_players c9w_games e.username ∧
      e.score = e.wins * 3 + e.draws * 1) ∧
    List.Pairwise (fun a b : LeaderboardEntry => a.username ≤ b.username)
      (leaderboard c9w_players c9w_games) ∧
    ((leaderboard c9w_players c9w_games).map (fun e => e.username)).Nodup ∧
    ∀ u : String,
      0 < winCount c9w_players c9w_games u + lossCount c9w_players c9w_games u +
          drawCount c9w_players c9w_games u →
      ∃ e ∈ leaderboard c9w_players c9w_games, e.username = u :=
  C9_leaderboard_counts c9w_players c9w_games (by decide) (by decide) (by decide)

end TTT
